import Mathlib

/-!
Verification of the anomalous-sequence scoring core of msticpy
(`msticpy/analysis/anomalous_sequence/utils/cmds_params_only.py`,
`cmds_params_values.py`, `probabilities.py`) against its specification.

Modelling conventions:
* Python dicts / defaultdicts are modelled as association lists
  `List (String × α)` in insertion order; `bump` models `d[k] += 1` on a
  `defaultdict(lambda: 0)`.
* Python floats are modelled as exact rationals `ℚ`.  The floating-point
  power `x ** (1 / k)` (geometric-mean normalisation) is kept abstract as a
  parameter `rt : ℕ → ℚ → ℚ` (`rt k x` stands for `x ** (1/k)` with `k ≠ 0`);
  no verified property depends on its numeric value.
* A Python exception (ZeroDivisionError, failed assertion, ValueError) is
  modelled as `none` of an `Option` result; `np.nan` is modelled as the
  inner `none` of an `Option ℚ` likelihood value.
-/

namespace Msticpy

/-- Association-list table modelling a Python (default)dict in insertion
order: a flat counts/probability table `key → number`. -/
abbrev Tbl1 (α : Type) := List (String × α)

/-- Two-level table `key → (key → number)`. -/
abbrev Tbl2 (α : Type) := List (String × Tbl1 α)

/-- The keys of a table, in insertion order (Python `dict.keys()`). -/
def tkeys {β : Type} (t : List (String × β)) : List String := t.map Prod.fst

/-- Dict lookup with a default (Python `defaultdict` read access). -/
def lookupD {α : Type} (t : Tbl1 α) (k : String) (d : α) : α :=
  (List.lookup k t).getD d

/-- Count stored for `k` in a flat counts table (0 if absent). -/
def getN (t : Tbl1 ℕ) (k : String) : ℕ := lookupD t k 0

/-- The second-level row stored under `k` (empty if absent), as created on
demand by a nested `defaultdict`. -/
def row2 {α : Type} (t : Tbl2 α) (k : String) : Tbl1 α :=
  (List.lookup k t).getD []

/-- Count stored for the pair `(k1, k2)` in a nested counts table. -/
def getN2 (t : Tbl2 ℕ) (k1 k2 : String) : ℕ := getN (row2 t k1) k2

/-- `t[k] += 1` on a `defaultdict(lambda: 0)`: update the first entry for
`k` in place, or append `(k, 1)` (Python dicts append new keys at the
end). -/
def bump (t : Tbl1 ℕ) (k : String) : Tbl1 ℕ :=
  match t with
  | [] => [(k, 1)]
  | (a, v) :: rest => if a = k then (a, v + 1) :: rest else (a, v) :: bump rest k

/-- `t[k1][k2] += 1` on a nested `defaultdict`. -/
def bump2 (t : Tbl2 ℕ) (k1 k2 : String) : Tbl2 ℕ :=
  match t with
  | [] => [(k1, [(k2, 1)])]
  | (a, row) :: rest =>
    if a = k1 then (a, bump row k2) :: rest else (a, row) :: bump2 rest k1 k2

/-!  ### The StateMatrix data structure

`msticpy/analysis/anomalous_sequence/utils/data_structures.py` is not part
of the sources at hand (only its tests and callers are), so the
StateMatrix container is modelled from the specification. -/

/-- Modelled from the spec: construction-time validity of a flat
StateMatrix (`data_structures.StateMatrix`, not in the sources).  The spec
requires construction to fail on an empty mapping or when the unknown
token is missing from the top level. -/
def valid1 {α : Type} (t : Tbl1 α) (unkT : String) : Prop :=
  t ≠ [] ∧ unkT ∈ tkeys t

/-- Modelled from the spec: construction-time validity of a nested
StateMatrix.  In addition to the flat checks, the unknown token must be
present inside every second-level sub-mapping. -/
def valid2 {α : Type} (t : Tbl2 α) (unkT : String) : Prop :=
  t ≠ [] ∧ unkT ∈ tkeys t ∧ ∀ r ∈ t, unkT ∈ tkeys r.2

instance {α : Type} (t : Tbl1 α) (u : String) : Decidable (valid1 t u) :=
  decidable_of_iff (0 < t.length ∧ u ∈ tkeys t)
    (by simp [valid1, List.length_pos])

instance {α : Type} (t : Tbl2 α) (u : String) : Decidable (valid2 t u) :=
  decidable_of_iff (0 < t.length ∧ u ∈ tkeys t ∧ ∀ r ∈ t, u ∈ tkeys r.2)
    (by simp [valid2, List.length_pos])

/-- Modelled from the spec: lookup in a flat StateMatrix — the exact key if
present, else the value stored under the unknown-token key.  `none` can only
arise on an invalid table (missing unknown token). -/
def smGet1 {α : Type} (t : Tbl1 α) (unkT k : String) : Option α :=
  match List.lookup k t with
  | some v => some v
  | none => List.lookup unkT t

/-- Modelled from the spec: lookup in a nested StateMatrix — the fallback
recursion happens independently at each level. -/
def smGet2 {α : Type} (t : Tbl2 α) (unkT k1 k2 : String) : Option α :=
  match smGet1 t unkT k1 with
  | some row => smGet1 row unkT k2
  | none => none

/-!  ### The parameter-only variant (`cmds_params_only.py`) -/

namespace CPO

/-- `Cmd` of `data_structures.py` as used by the parameter-only modules: a
command name and its set of parameters (the Python set is modelled as its
iteration sequence). -/
structure Cmd where
  name : String
  params : List String
deriving DecidableEq, Inhabited

/-- The four count accumulators of `compute_counts`
(`seq1_counts`, `seq2_counts`, `param_counts`, `cmd_param_counts`). -/
structure Counts where
  seq1 : Tbl1 ℕ
  seq2 : Tbl2 ℕ
  param : Tbl1 ℕ
  cmdParam : Tbl2 ℕ
deriving DecidableEq

/-- Body of the inner loop of `compute_counts` for one command `cmd`
(state: accumulators plus the running `prev`):
`seq1_counts[cmd.name] += 1; seq2_counts[prev][cmd.name] += 1;
prev = cmd.name; for p in cmd.params: param_counts[p] += 1;
cmd_param_counts[cmd.name][p] += 1`. -/
def countCmd (st : Counts × String) (cmd : Cmd) : Counts × String :=
  let c0 := st.1
  let c1 := { c0 with
    seq1 := bump c0.seq1 cmd.name
    seq2 := bump2 c0.seq2 st.2 cmd.name }
  let c2 := cmd.params.foldl (fun c p =>
    { c with
      param := bump c.param p
      cmdParam := bump2 c.cmdParam cmd.name p }) c1
  (c2, cmd.name)

/-- One session of the counting loop of `compute_counts`: start with
`prev = start_token; seq1_counts[prev] += 1`, fold the commands, then the
closing `seq2_counts[prev][end_token] += 1; seq1_counts[end_token] += 1`. -/
def countSession (c : Counts) (startT endT : String) (session : List Cmd) :
    Counts :=
  let st := session.foldl countCmd
    ({ c with seq1 := bump c.seq1 startT }, startT)
  { st.1 with
    seq2 := bump2 st.1.seq2 st.2 endT
    seq1 := bump st.1.seq1 endT }

/-- The raw counting loop of `compute_counts` over all sessions, before any
Laplace smoothing. -/
def countingPass (sessions : List (List Cmd)) (startT endT : String) :
    Counts :=
  sessions.foldl (fun c s => countSession c startT endT s) ⟨[], [], [], []⟩

/-- `cmds = list(seq1_counts.keys()) + [unk_token]`: the command vocabulary
over which Laplace smoothing runs. -/
def cmdsVocab (sessions : List (List Cmd)) (startT endT unkT : String) :
    List String :=
  tkeys (countingPass sessions startT endT).seq1 ++ [unkT]

/-- One iteration of the command-smoothing double loop:
`if cmd1 != end_token and cmd2 != start_token: seq1_counts[cmd1] += 1;
seq2_counts[cmd1][cmd2] += 1; seq1_counts[cmd2] += 1`. -/
def smoothCmdsStep (startT endT : String) (c : Counts) (c1 c2 : String) :
    Counts :=
  if c1 ≠ endT ∧ c2 ≠ startT then
    { c with
      seq1 := bump (bump c.seq1 c1) c2
      seq2 := bump2 c.seq2 c1 c2 }
  else c

/-- Laplace smoothing for commands (`for cmd1 in cmds: for cmd2 in cmds:`). -/
def smoothCmds (c : Counts) (cmds : List String) (startT endT : String) :
    Counts :=
  cmds.foldl (fun c c1 =>
    cmds.foldl (fun c c2 => smoothCmdsStep startT endT c c1 c2) c) c

/-- One iteration of the parameter-smoothing double loop:
`if param in cmd_param_counts[cmd] or param == unk_token:
param_counts[param] += 1; cmd_param_counts[cmd][param] += 1`. -/
def smoothParamsStep (unkT : String) (c : Counts) (cmd p : String) : Counts :=
  if p ∈ tkeys (row2 c.cmdParam cmd) ∨ p = unkT then
    { c with
      param := bump c.param p
      cmdParam := bump2 c.cmdParam cmd p }
  else c

/-- Laplace smoothing for parameters
(`for cmd in cmds: for param in params:`). -/
def smoothParams (c : Counts) (cmds params : List String) (unkT : String) :
    Counts :=
  cmds.foldl (fun c cmd =>
    params.foldl (fun c p => smoothParamsStep unkT c cmd p) c) c

/-- `compute_counts` up to (but not including) the StateMatrix
constructions: counting pass, command smoothing, parameter smoothing. -/
def computeCountsRaw (sessions : List (List Cmd))
    (startT endT unkT : String) : Counts :=
  let c := countingPass sessions startT endT
  let cmds := cmdsVocab sessions startT endT unkT
  let c := smoothCmds c cmds startT endT
  let params := tkeys c.param ++ [unkT]
  smoothParams c cmds params unkT

/-- `compute_counts` of `cmds_params_only.py`: the final `StateMatrix`
constructions validate each table; a failed construction assertion is
modelled as `none`. -/
def computeCounts (sessions : List (List Cmd)) (startT endT unkT : String) :
    Option Counts :=
  let c := computeCountsRaw sessions startT endT unkT
  if valid1 c.seq1 unkT ∧ valid2 c.seq2 unkT ∧ valid1 c.param unkT ∧
      valid2 c.cmdParam unkT
  then some c else none

/-- Verification helper: the structural invariant maintained by the
counting pass — second-level keys of `seq2` are observed `seq1` keys
distinct from the end token, first-level keys of `cmd_param_counts` are
observed `seq1` keys, and all top-level key lists are duplicate-free
(they model Python dict key views). -/
def InvCnt (endT : String) (c : Counts) : Prop :=
  (∀ k ∈ tkeys c.seq2, k ∈ tkeys c.seq1 ∧ k ≠ endT) ∧
  (∀ k ∈ tkeys c.cmdParam, k ∈ tkeys c.seq1) ∧
  (tkeys c.seq1).Nodup ∧ (tkeys c.seq2).Nodup ∧
  (tkeys c.param).Nodup ∧ (tkeys c.cmdParam).Nodup

end CPO

/-!  ### The parameter+value variant (`cmds_params_values.py`) -/

namespace CPV

/-- `Cmd` as used by the value-aware modules: a command name and its
param → value mapping (modelled as the dict's item sequence). -/
structure Cmd where
  name : String
  params : List (String × String)
deriving DecidableEq, Inhabited

/-- The six count accumulators of the value-aware `compute_counts`
(`seq1_counts`, `seq2_counts`, `param_counts`, `cmd_param_counts`,
`value_counts`, `param_value_counts`). -/
structure Counts where
  seq1 : Tbl1 ℕ
  seq2 : Tbl2 ℕ
  param : Tbl1 ℕ
  cmdParam : Tbl2 ℕ
  value : Tbl1 ℕ
  paramValue : Tbl2 ℕ
deriving DecidableEq

/-- Inner loop of the value-aware `compute_counts` for one command:
additionally `value_counts[v] += 1; param_value_counts[p][v] += 1` for
every item `(p, v)` of the command's params dict. -/
def countCmd (st : Counts × String) (cmd : Cmd) : Counts × String :=
  let c0 := st.1
  let c1 := { c0 with
    seq1 := bump c0.seq1 cmd.name
    seq2 := bump2 c0.seq2 st.2 cmd.name }
  let c2 := cmd.params.foldl (fun c pv =>
    { c with
      param := bump c.param pv.1
      value := bump c.value pv.2
      cmdParam := bump2 c.cmdParam cmd.name pv.1
      paramValue := bump2 c.paramValue pv.1 pv.2 }) c1
  (c2, cmd.name)

/-- One session of the value-aware counting loop. -/
def countSession (c : Counts) (startT endT : String) (session : List Cmd) :
    Counts :=
  let st := session.foldl countCmd
    ({ c with seq1 := bump c.seq1 startT }, startT)
  { st.1 with
    seq2 := bump2 st.1.seq2 st.2 endT
    seq1 := bump st.1.seq1 endT }

/-- The raw counting loop of the value-aware `compute_counts`. -/
def countingPass (sessions : List (List Cmd)) (startT endT : String) :
    Counts :=
  sessions.foldl (fun c s => countSession c startT endT s)
    ⟨[], [], [], [], [], []⟩

/-- `cmds = list(seq1_counts.keys()) + [unk_token]` in the value-aware
variant. -/
def cmdsVocab (sessions : List (List Cmd)) (startT endT unkT : String) :
    List String :=
  tkeys (countingPass sessions startT endT).seq1 ++ [unkT]

/-- Command-smoothing step (identical text to the parameter-only
variant). -/
def smoothCmdsStep (startT endT : String) (c : Counts) (c1 c2 : String) :
    Counts :=
  if c1 ≠ endT ∧ c2 ≠ startT then
    { c with
      seq1 := bump (bump c.seq1 c1) c2
      seq2 := bump2 c.seq2 c1 c2 }
  else c

/-- Laplace smoothing for commands in the value-aware variant. -/
def smoothCmds (c : Counts) (cmds : List String) (startT endT : String) :
    Counts :=
  cmds.foldl (fun c c1 =>
    cmds.foldl (fun c c2 => smoothCmdsStep startT endT c c1 c2) c) c

/-- Parameter-smoothing step (identical text to the parameter-only
variant). -/
def smoothParamsStep (unkT : String) (c : Counts) (cmd p : String) : Counts :=
  if p ∈ tkeys (row2 c.cmdParam cmd) ∨ p = unkT then
    { c with
      param := bump c.param p
      cmdParam := bump2 c.cmdParam cmd p }
  else c

/-- Laplace smoothing for parameters in the value-aware variant. -/
def smoothParams (c : Counts) (cmds params : List String) (unkT : String) :
    Counts :=
  cmds.foldl (fun c cmd =>
    params.foldl (fun c p => smoothParamsStep unkT c cmd p) c) c

/-- Value-smoothing step:
`if value in param_value_counts[param] or value == unk_token:
value_counts[value] += 1; param_value_counts[param][value] += 1`. -/
def smoothValuesStep (unkT : String) (c : Counts) (p v : String) : Counts :=
  if v ∈ tkeys (row2 c.paramValue p) ∨ v = unkT then
    { c with
      value := bump c.value v
      paramValue := bump2 c.paramValue p v }
  else c

/-- Laplace smoothing for values
(`for param in params: for value in values:`). -/
def smoothValues (c : Counts) (params values : List String) (unkT : String) :
    Counts :=
  params.foldl (fun c p =>
    values.foldl (fun c v => smoothValuesStep unkT c p v) c) c

/-- The value-aware `compute_counts` up to the StateMatrix constructions. -/
def computeCountsRaw (sessions : List (List Cmd))
    (startT endT unkT : String) : Counts :=
  let c := countingPass sessions startT endT
  let cmds := cmdsVocab sessions startT endT unkT
  let c := smoothCmds c cmds startT endT
  let params := tkeys c.param ++ [unkT]
  let c := smoothParams c cmds params unkT
  let values := tkeys c.value ++ [unkT]
  smoothValues c params values unkT

/-- The value-aware `compute_counts`: the six `StateMatrix` constructions
validate each table; a failed construction assertion is modelled as
`none`. -/
def computeCounts (sessions : List (List Cmd)) (startT endT unkT : String) :
    Option Counts :=
  let c := computeCountsRaw sessions startT endT unkT
  if valid1 c.seq1 unkT ∧ valid2 c.seq2 unkT ∧ valid1 c.param unkT ∧
      valid2 c.cmdParam unkT ∧ valid1 c.value unkT ∧ valid2 c.paramValue unkT
  then some c else none

/-- Verification helper: the structural invariant maintained by the
value-aware counting pass (the parameter-only invariant plus the analogous
facts for the value tables). -/
def InvCnt (endT : String) (c : Counts) : Prop :=
  (∀ k ∈ tkeys c.seq2, k ∈ tkeys c.seq1 ∧ k ≠ endT) ∧
  (∀ k ∈ tkeys c.cmdParam, k ∈ tkeys c.seq1) ∧
  (∀ k ∈ tkeys c.paramValue, k ∈ tkeys c.param) ∧
  (tkeys c.seq1).Nodup ∧ (tkeys c.seq2).Nodup ∧
  (tkeys c.param).Nodup ∧ (tkeys c.cmdParam).Nodup ∧
  (tkeys c.value).Nodup ∧ (tkeys c.paramValue).Nodup

end CPV


/-!  ### Python float comparison helpers

`min` / `list.index` over floats compare with `<` / `==`; any comparison
involving NaN (here: the inner `none`) is `False`. -/

/-- Python float `<` lifted to the NaN-aware likelihood domain. -/
def pyLt (a b : Option ℚ) : Bool :=
  match a, b with
  | some x, some y => decide (x < y)
  | _, _ => false

/-- Python float `==` lifted to the NaN-aware likelihood domain
(`nan == nan` is `False`). -/
def pyEq (a b : Option ℚ) : Bool :=
  match a, b with
  | some x, some y => decide (x = y)
  | _, _ => false

/-- Python `min` over a non-empty list: keep the current value unless a
later item compares strictly `<` (ties keep the earlier value). -/
def pyMinFold (h : Option ℚ) (t : List (Option ℚ)) : Option ℚ :=
  t.foldl (fun cur x => if pyLt x cur then x else cur) h

/-- Python `list.index(m)`: index of the first element `== m`; `none`
models the ValueError when no element compares equal. -/
def idxOfEq (l : List (Option ℚ)) (m : Option ℚ) : Option ℕ :=
  match l with
  | [] => none
  | x :: xs => if pyEq x m then some 0 else (idxOfEq xs m).map (· + 1)

/-- The geometric-mean adjustment inside
`compute_likelihood_windows_in_session`: `lik = lik ** (1 / k)` with
`k = window_len` (ZeroDivisionError when `window_len = 0`; NaN stays
NaN). -/
def adjustWindowGeo (useGeoMean : Bool) (windowLen : ℕ) (rt : ℕ → ℚ → ℚ)
    (lik : Option ℚ) : Option (Option ℚ) :=
  if useGeoMean then
    if windowLen = 0 then none else some (lik.map (rt windowLen))
  else some lik

/-- The numeric effect of the geometric-mean adjustment on a defined
likelihood value (`windowLen ≠ 0`): `rt windowLen q` when requested, `q`
otherwise. -/
def geoAdj (useGeoMean : Bool) (windowLen : ℕ) (rt : ℕ → ℚ → ℚ) (q : ℚ) :
    ℚ :=
  if useGeoMean then rt windowLen q else q

/-- Exception-propagating loop accumulator: skip the body once a previous
iteration raised (`none`). -/
def bindStep {γ : Type} (g : γ → ℕ → Option γ) (acc : Option γ) (i : ℕ) :
    Option γ :=
  match acc with
  | none => none
  | some st => g st i

/-- Exception-propagating `likelihoods.append(lik)` accumulator for the
sliding-window loops. -/
def accStep {γ : Type} (g : ℕ → Option γ) (acc : Option (List γ)) (i : ℕ) :
    Option (List γ) :=
  match acc with
  | none => none
  | some liks =>
    match g i with
    | none => none
    | some v => some (liks ++ [v])

namespace CPO

/-- `compute_prob_setofparams_given_cmd` of `cmds_params_only.py`.
`paramCondCmdProbs cmd` is the reference row `ref = param_cond_cmd_probs[cmd]`
(a StateMatrix or dict lookup, modelled as a total row-valued function);
the Bernoulli product runs over `ref.items()`.  With `use_geo_mean` the
code computes `prob ** (1 / k)` for `k = len(ref)` with no `k > 0` guard:
`k = 0` makes `1 / k` raise ZeroDivisionError, modelled as `none`;
otherwise the float power is `rt k prob`. -/
def computeProbSetofparamsGivenCmd (cmd : String) (params : List String)
    (paramCondCmdProbs : String → Tbl1 ℚ) (useGeoMean : Bool)
    (rt : ℕ → ℚ → ℚ) : Option ℚ :=
  if params.length = 0 then some 1
  else
    let ref := paramCondCmdProbs cmd
    let prob := ref.foldl
      (fun prob pq => if pq.1 ∈ params then prob * pq.2 else prob * (1 - pq.2)) 1
    if useGeoMean then
      if ref.length = 0 then none else some (rt ref.length prob)
    else some prob

/-- One iteration of the subsequent-command loop of
`compute_likelihood_window` (`for i, cmdparam in enumerate(window[1:])`):
`prev, cur = window[i - 1], window[i]` — Python's `window[-1]` at `i = 0`
is the LAST element, written here as index `n - 1` — then
`prob *= trans_probs[prev.name][cur.name]` and the parameter-set
likelihood of `cur`; `cur_cmd` is carried along.  `none` propagates a
ZeroDivisionError from the parameter likelihood. -/
def windowStep (window : List Cmd) (transProbs : String → String → ℚ)
    (paramCondCmdProbs : String → Tbl1 ℚ) (rt : ℕ → ℚ → ℚ)
    (st : ℚ × String) (i : ℕ) : Option (ℚ × String) :=
  let n := window.length
  let prev := window.getD (if i = 0 then n - 1 else i - 1) default
  let cur := window.getD i default
  match computeProbSetofparamsGivenCmd cur.name cur.params paramCondCmdProbs
      true rt with
  | none => none
  | some paramCondProb =>
    some (st.1 * transProbs prev.name cur.name * paramCondProb, cur.name)

/-- `compute_likelihood_window` of `cmds_params_only.py`.  The result is
`some none` for the empty window (`np.nan`), `none` if a nested call
raised, and `some (some q)` otherwise.  The subsequent-command loop
reproduces the source exactly: `for i, cmdparam in enumerate(window[1:]):
prev, cur = window[i - 1], window[i]`, where Python's `window[-1]` at
`i = 0` is the LAST element of the window. -/
def computeLikelihoodWindow (window : List Cmd)
    (priorProbs : String → ℚ) (transProbs : String → String → ℚ)
    (paramCondCmdProbs : String → Tbl1 ℚ)
    (useStartToken useEndToken : Bool) (startT endT : String)
    (rt : ℕ → ℚ → ℚ) : Option (Option ℚ) :=
  let n := window.length
  if n = 0 then some none
  else
    let w0 := window.getD 0 default
    match computeProbSetofparamsGivenCmd w0.name w0.params paramCondCmdProbs
        true rt with
    | none => none
    | some paramCondProb =>
      let init : ℚ :=
        if useStartToken then transProbs startT w0.name * paramCondProb
        else priorProbs w0.name * paramCondProb
      let res := (List.range (n - 1)).foldl
        (bindStep (windowStep window transProbs paramCondCmdProbs rt))
        (some (init, w0.name))
      match res with
      | none => none
      | some st =>
        some (some (if useEndToken then st.1 * transProbs st.2 endT else st.1))

/-- The body of one sliding-window iteration of
`compute_likelihood_windows_in_session`: score the window starting at
position `i` of the (possibly end-token-extended) session — only position
0 may use the start transition — then apply the geometric-mean adjustment.
`none` propagates an exception from either step. -/
def sessionStep (session : List Cmd) (priorProbs : String → ℚ)
    (transProbs : String → String → ℚ) (paramCondCmdProbs : String → Tbl1 ℚ)
    (windowLen : ℕ) (useStartEndTokens : Bool) (startT endT : String)
    (useGeoMean : Bool) (rt : ℕ → ℚ → ℚ) (i : ℕ) : Option (Option ℚ) :=
  let sess := session ++ (if useStartEndTokens then [Cmd.mk endT []] else [])
  match computeLikelihoodWindow ((sess.drop i).take windowLen) priorProbs
      transProbs paramCondCmdProbs (useStartEndTokens && i == 0) false
      startT endT rt with
  | none => none
  | some lik => adjustWindowGeo useGeoMean windowLen rt lik

/-- `compute_likelihood_windows_in_session` of `cmds_params_only.py`:
append the synthetic end-token command when requested, then slide a window
of length `window_len`; only position 0 may use the start transition.
`none` models a propagated exception; otherwise the list of per-position
likelihood values (inner `none` = NaN). -/
def computeLikelihoodWindowsInSession (session : List Cmd)
    (priorProbs : String → ℚ) (transProbs : String → String → ℚ)
    (paramCondCmdProbs : String → Tbl1 ℚ) (windowLen : ℕ)
    (useStartEndTokens : Bool) (startT endT : String) (useGeoMean : Bool)
    (rt : ℕ → ℚ → ℚ) : Option (List (Option ℚ)) :=
  let sess := session ++ (if useStartEndTokens then [Cmd.mk endT []] else [])
  (List.range (sess.length + 1 - windowLen)).foldl
    (accStep (sessionStep session priorProbs transProbs paramCondCmdProbs
      windowLen useStartEndTokens startT endT useGeoMean rt))
    (some [])

/-- `rarest_window_session` of `cmds_params_only.py`: the empty likelihood
list yields `([], np.nan)` (modelled `some ([], none)`); otherwise
`min_lik = min(likelihoods); ind = likelihoods.index(min_lik)` and the
result is `session[ind : ind + window_len]` with the minimum. -/
def rarestWindowSession (session : List Cmd)
    (priorProbs : String → ℚ) (transProbs : String → String → ℚ)
    (paramCondCmdProbs : String → Tbl1 ℚ) (windowLen : ℕ)
    (useStartEndTokens : Bool) (startT endT : String) (useGeoMean : Bool)
    (rt : ℕ → ℚ → ℚ) : Option (List Cmd × Option ℚ) :=
  match computeLikelihoodWindowsInSession session priorProbs transProbs
      paramCondCmdProbs windowLen useStartEndTokens startT endT useGeoMean
      rt with
  | none => none
  | some [] => some ([], none)
  | some (h :: t) =>
    let minLik := pyMinFold h t
    match idxOfEq (h :: t) minLik with
    | none => none
    | some ind => some ((session.drop ind).take windowLen, minLik)

/-- The exact rational value of the sliding-window likelihood at position
`i` (before the geometric-mean adjustment), when `compute_likelihood_window`
neither raised nor returned NaN — the observer used to state that the
session-level likelihoods are the independently computed per-window
ones. -/
def windowLikAt (session : List Cmd) (priorProbs : String → ℚ)
    (transProbs : String → String → ℚ) (paramCondCmdProbs : String → Tbl1 ℚ)
    (windowLen : ℕ) (useStartEndTokens : Bool) (startT endT : String)
    (rt : ℕ → ℚ → ℚ) (i : ℕ) : ℚ :=
  let sess := session ++ (if useStartEndTokens then [Cmd.mk endT []] else [])
  ((computeLikelihoodWindow ((sess.drop i).take windowLen) priorProbs
      transProbs paramCondCmdProbs (useStartEndTokens && i == 0) false
      startT endT rt).getD (some 0)).getD 0

end CPO

namespace CPV

/-- The value-aware `compute_prob_setofparams_given_cmd` of
`cmds_params_values.py`.  `paramsWithVals` is the command's param → value
dict; for every reference param present in it that is also modellable, the
value-conditional probability is folded in and counted towards the
geometric-mean exponent.  Unlike the parameter-only variant, the source
guards the normalisation with `if k > 0`, so no exception is possible. -/
def computeProbSetofparamsGivenCmd (cmd : String)
    (paramsWithVals : List (String × String))
    (paramCondCmdProbs : String → Tbl1 ℚ)
    (valueCondParamProbs : String → String → ℚ)
    (modellableParams : List String) (useGeoMean : Bool)
    (rt : ℕ → ℚ → ℚ) : ℚ :=
  if paramsWithVals.length = 0 then 1
  else
    let refCmd := paramCondCmdProbs cmd
    let st := refCmd.foldl
      (fun (st : ℚ × ℕ) pq =>
        match List.lookup pq.1 paramsWithVals with
        | some v =>
          if pq.1 ∈ modellableParams then
            (st.1 * pq.2 * valueCondParamProbs pq.1 v, st.2 + 1)
          else (st.1 * pq.2, st.2)
        | none => (st.1 * (1 - pq.2), st.2))
      (1, 0)
    if useGeoMean then
      let k := refCmd.length + st.2
      if 0 < k then rt k st.1 else st.1
    else st.1

/-- The value-aware `compute_likelihood_window`, with the same
`window[i - 1], window[i]` subsequent-command loop as the parameter-only
variant (Python's `window[-1]` wrap-around at `i = 0`).  No nested call
can raise, so the only `Option` layer is NaN for the empty window. -/
def computeLikelihoodWindow (window : List Cmd)
    (priorProbs : String → ℚ) (transProbs : String → String → ℚ)
    (paramCondCmdProbs : String → Tbl1 ℚ)
    (valueCondParamProbs : String → String → ℚ)
    (modellableParams : List String)
    (useStartToken useEndToken : Bool) (startT endT : String)
    (rt : ℕ → ℚ → ℚ) : Option ℚ :=
  let n := window.length
  if n = 0 then none
  else
    let w0 := window.getD 0 default
    let paramValsProb := computeProbSetofparamsGivenCmd w0.name w0.params
      paramCondCmdProbs valueCondParamProbs modellableParams true rt
    let init : ℚ :=
      if useStartToken then transProbs startT w0.name * paramValsProb
      else priorProbs w0.name * paramValsProb
    let st := (List.range (n - 1)).foldl
      (fun (st : ℚ × String) i =>
        let prev := window.getD (if i = 0 then n - 1 else i - 1) default
        let cur := window.getD i default
        let paramValsProb := computeProbSetofparamsGivenCmd cur.name
          cur.params paramCondCmdProbs valueCondParamProbs modellableParams
          true rt
        (st.1 * transProbs prev.name cur.name * paramValsProb, cur.name))
      (init, w0.name)
    some (if useEndToken then st.1 * transProbs st.2 endT else st.1)

/-- The body of one sliding-window iteration of the value-aware
`compute_likelihood_windows_in_session` (score the window at position `i`,
then the geometric-mean adjustment). -/
def sessionStep (session : List Cmd) (priorProbs : String → ℚ)
    (transProbs : String → String → ℚ)
    (paramCondCmdProbs : String → Tbl1 ℚ)
    (valueCondParamProbs : String → String → ℚ)
    (modellableParams : List String) (windowLen : ℕ)
    (useStartEndTokens : Bool) (startT endT : String) (useGeoMean : Bool)
    (rt : ℕ → ℚ → ℚ) (i : ℕ) : Option (Option ℚ) :=
  let sess := session ++ (if useStartEndTokens then [Cmd.mk endT []] else [])
  adjustWindowGeo useGeoMean windowLen rt
    (computeLikelihoodWindow ((sess.drop i).take windowLen) priorProbs
      transProbs paramCondCmdProbs valueCondParamProbs modellableParams
      (useStartEndTokens && i == 0) false startT endT rt)

/-- The value-aware `compute_likelihood_windows_in_session`.  `none`
models the ZeroDivisionError of `lik ** (1 / window_len)` when
`window_len = 0` and geometric-mean normalisation is on. -/
def computeLikelihoodWindowsInSession (session : List Cmd)
    (priorProbs : String → ℚ) (transProbs : String → String → ℚ)
    (paramCondCmdProbs : String → Tbl1 ℚ)
    (valueCondParamProbs : String → String → ℚ)
    (modellableParams : List String) (windowLen : ℕ)
    (useStartEndTokens : Bool) (startT endT : String) (useGeoMean : Bool)
    (rt : ℕ → ℚ → ℚ) : Option (List (Option ℚ)) :=
  let sess := session ++ (if useStartEndTokens then [Cmd.mk endT []] else [])
  (List.range (sess.length + 1 - windowLen)).foldl
    (accStep (sessionStep session priorProbs transProbs paramCondCmdProbs
      valueCondParamProbs modellableParams windowLen useStartEndTokens
      startT endT useGeoMean rt))
    (some [])

/-- The value-aware `rarest_window_session`. -/
def rarestWindowSession (session : List Cmd)
    (priorProbs : String → ℚ) (transProbs : String → String → ℚ)
    (paramCondCmdProbs : String → Tbl1 ℚ)
    (valueCondParamProbs : String → String → ℚ)
    (modellableParams : List String) (windowLen : ℕ)
    (useStartEndTokens : Bool) (startT endT : String) (useGeoMean : Bool)
    (rt : ℕ → ℚ → ℚ) : Option (List Cmd × Option ℚ) :=
  match computeLikelihoodWindowsInSession session priorProbs transProbs
      paramCondCmdProbs valueCondParamProbs modellableParams windowLen
      useStartEndTokens startT endT useGeoMean rt with
  | none => none
  | some [] => some ([], none)
  | some (h :: t) =>
    let minLik := pyMinFold h t
    match idxOfEq (h :: t) minLik with
    | none => none
    | some ind => some ((session.drop ind).take windowLen, minLik)

/-- The per-position sliding-window likelihood observer for the value-aware
variant (before the geometric-mean adjustment). -/
def windowLikAt (session : List Cmd) (priorProbs : String → ℚ)
    (transProbs : String → String → ℚ) (paramCondCmdProbs : String → Tbl1 ℚ)
    (valueCondParamProbs : String → String → ℚ)
    (modellableParams : List String) (windowLen : ℕ)
    (useStartEndTokens : Bool) (startT endT : String) (rt : ℕ → ℚ → ℚ)
    (i : ℕ) : ℚ :=
  let sess := session ++ (if useStartEndTokens then [Cmd.mk endT []] else [])
  (computeLikelihoodWindow ((sess.drop i).take windowLen) priorProbs
      transProbs paramCondCmdProbs valueCondParamProbs modellableParams
      (useStartEndTokens && i == 0) false startT endT rt).getD 0

/-- `get_params_to_model_values` of `cmds_params_values.py`:
`param_stats` computes, for every first-level key of
`param_value_counts`, the triple `(len(vals), param_counts[param],
100 * len(vals) / param_counts[param])`; the division raises
ZeroDivisionError (modelled `none`) when some `param_counts[param]` is 0.
The modellable params are those with `len(vals) <= 20`,
`param_counts[param] >= 20` and ratio at most 10, collected into a set. -/
def getParamsToModelValues (paramCounts : String → ℚ)
    (paramValueCounts : Tbl2 ℚ) : Option (Finset String) :=
  if paramValueCounts.any (fun r => paramCounts r.1 = 0) then none
  else some
    (((paramValueCounts.filter (fun r =>
        r.2.length ≤ 20 ∧ 20 ≤ paramCounts r.1 ∧
          100 * (r.2.length : ℚ) / paramCounts r.1 ≤ 10)).map
      Prod.fst).toFinset)

end CPV

/-!  ### Probability derivation (`probabilities.py`) -/

namespace Probs

/-- Sum of the values of a flat table (`sum(d.values())`). -/
def sumVals (t : Tbl1 ℚ) : ℚ := (t.map Prod.snd).sum

/-- Row-normalisation of one second-level row, exactly as the three
derivation functions write it:
`probs[a][b] = counts[a][b] / sum(counts[a].values())` (the numerator is
re-read through the dict lookup). -/
def normalizeRow (row : Tbl1 ℚ) : Tbl1 ℚ :=
  row.map (fun kv => (kv.1, lookupD row kv.1 0 / sumVals row))

/-- The nested-table normalisation loop shared verbatim by
`compute_cmds_probs`, `compute_params_probs` and `compute_values_probs`:
keys with an empty row are never assigned into the output dict. -/
def condProbsRaw (t : Tbl2 ℚ) : Tbl2 ℚ :=
  (t.filter (fun r => ¬ r.2.isEmpty)).map (fun r => (r.1, normalizeRow r.2))

/-- The flat-table normalisation loop (`probs[k] = counts[k] / total`). -/
def unigramProbsRaw (t : Tbl1 ℚ) : Tbl1 ℚ :=
  t.map (fun kv => (kv.1, lookupD t kv.1 0 / sumVals t))

/-- `compute_cmds_probs` of `probabilities.py`.  `none` models a
ZeroDivisionError (a non-empty table or row with zero total mass) or a
failed StateMatrix construction assertion on the outputs. -/
def computeCmdsProbs (seq1 : Tbl1 ℚ) (seq2 : Tbl2 ℚ) (unkT : String) :
    Option (Tbl1 ℚ × Tbl2 ℚ) :=
  if ¬ seq1.isEmpty ∧ sumVals seq1 = 0 then none
  else if seq2.any (fun r => ¬ r.2.isEmpty ∧ sumVals r.2 = 0) then none
  else
    let priorProbs := unigramProbsRaw seq1
    let transProbs := condProbsRaw seq2
    if valid1 priorProbs unkT ∧ valid2 transProbs unkT then
      some (priorProbs, transProbs)
    else none

/-- `compute_params_probs` of `probabilities.py` (conditional rows first,
then the flat table, as in the source). -/
def computeParamsProbs (paramCounts : Tbl1 ℚ) (cmdParamCounts : Tbl2 ℚ)
    (unkT : String) : Option (Tbl1 ℚ × Tbl2 ℚ) :=
  if cmdParamCounts.any (fun r => ¬ r.2.isEmpty ∧ sumVals r.2 = 0) then none
  else if ¬ paramCounts.isEmpty ∧ sumVals paramCounts = 0 then none
  else
    let paramCondCmdProbs := condProbsRaw cmdParamCounts
    let paramProbs := unigramProbsRaw paramCounts
    if valid1 paramProbs unkT ∧ valid2 paramCondCmdProbs unkT then
      some (paramProbs, paramCondCmdProbs)
    else none

/-- `compute_values_probs` of `probabilities.py`. -/
def computeValuesProbs (valueCounts : Tbl1 ℚ) (paramValueCounts : Tbl2 ℚ)
    (unkT : String) : Option (Tbl1 ℚ × Tbl2 ℚ) :=
  if paramValueCounts.any (fun r => ¬ r.2.isEmpty ∧ sumVals r.2 = 0) then none
  else if ¬ valueCounts.isEmpty ∧ sumVals valueCounts = 0 then none
  else
    let valueCondParamProbs := condProbsRaw paramValueCounts
    let valueProbs := unigramProbsRaw valueCounts
    if valid1 valueProbs unkT ∧ valid2 valueCondParamProbs unkT then
      some (valueProbs, valueCondParamProbs)
    else none

end Probs

/-!  ## Lemmas and theorems -/

theorem lookup_bump (t : Tbl1 ℕ) (k k' : String) :
    List.lookup k' (bump t k) =
      if k' = k then some (getN t k + 1) else List.lookup k' t := by
  induction t with
  | nil =>
    rcases eq_or_ne k' k with h | h
    · simp [bump, List.lookup, h, getN, lookupD]
    · simp [bump, List.lookup, h, beq_eq_false_iff_ne.mpr h]
  | cons hd tl ih =>
    obtain ⟨a, v⟩ := hd
    by_cases hak : a = k
    · subst hak
      rcases eq_or_ne k' a with h | h
      · simp [bump, List.lookup, h, getN, lookupD]
      · simp [bump, List.lookup, h, beq_eq_false_iff_ne.mpr h]
    · rcases eq_or_ne k' a with h | h
      · subst h
        simp [bump, hak, List.lookup, hak]
      · have h1 : (k' == a) = false := beq_eq_false_iff_ne.mpr h
        have h2 : (k == a) = false := beq_eq_false_iff_ne.mpr (Ne.symm hak)
        simp [bump, hak, List.lookup, h1, h2, ih, getN, lookupD]

theorem getN_bump (t : Tbl1 ℕ) (k k' : String) :
    getN (bump t k) k' = if k' = k then getN t k + 1 else getN t k' := by
  rcases eq_or_ne k' k with h | h <;>
    simp [getN, lookupD, lookup_bump, h]

@[simp] theorem tkeys_nil {α : Type} : tkeys ([] : List (String × α)) = [] := rfl

@[simp] theorem tkeys_cons {α : Type} (x : String × α) (t : List (String × α)) :
    tkeys (x :: t) = x.1 :: tkeys t := rfl

theorem tkeys_append {α : Type} (s t : List (String × α)) :
    tkeys (s ++ t) = tkeys s ++ tkeys t := by
  simp [tkeys]

theorem tkeys_bump (t : Tbl1 ℕ) (k : String) :
    tkeys (bump t k) = if k ∈ tkeys t then tkeys t else tkeys t ++ [k] := by
  induction t with
  | nil => simp [bump]
  | cons hd tl ih =>
    obtain ⟨b, v⟩ := hd
    by_cases hbk : b = k
    · subst hbk; simp [bump]
    · have hkb : ¬ k = b := fun h => hbk h.symm
      rcases em (k ∈ tkeys tl) with hm | hm <;>
        simp [bump, hbk, hm, hkb, ih]

theorem mem_tkeys_bump (t : Tbl1 ℕ) (k a : String) :
    a ∈ tkeys (bump t k) ↔ a ∈ tkeys t ∨ a = k := by
  rw [tkeys_bump]
  rcases em (k ∈ tkeys t) with hm | hm
  · rw [if_pos hm]
    constructor
    · exact Or.inl
    · rintro (h | rfl)
      · exact h
      · exact hm
  · rw [if_neg hm]
    simp

theorem lookup_bump2 (t : Tbl2 ℕ) (k1 k2 l : String) :
    List.lookup l (bump2 t k1 k2) =
      if l = k1 then some (bump (row2 t k1) k2) else List.lookup l t := by
  induction t with
  | nil =>
    rcases eq_or_ne l k1 with h | h
    · simp [bump2, List.lookup, h, row2, bump]
    · simp [bump2, List.lookup, h, beq_eq_false_iff_ne.mpr h]
  | cons hd tl ih =>
    obtain ⟨a, row⟩ := hd
    by_cases hak : a = k1
    · subst hak
      rcases eq_or_ne l a with h | h
      · simp [bump2, List.lookup, h, row2]
      · simp [bump2, List.lookup, h, beq_eq_false_iff_ne.mpr h]
    · rcases eq_or_ne l a with h | h
      · subst h
        simp [bump2, hak, List.lookup, hak]
      · have h1 : (l == a) = false := beq_eq_false_iff_ne.mpr h
        have h2 : (k1 == a) = false := beq_eq_false_iff_ne.mpr (Ne.symm hak)
        simp [bump2, hak, List.lookup, h1, h2, ih, row2]

theorem row2_bump2 (t : Tbl2 ℕ) (k1 k2 l : String) :
    row2 (bump2 t k1 k2) l =
      if l = k1 then bump (row2 t k1) k2 else row2 t l := by
  rcases eq_or_ne l k1 with h | h <;>
    simp [row2, lookup_bump2, h]

theorem getN2_bump2 (t : Tbl2 ℕ) (k1 k2 l1 l2 : String) :
    getN2 (bump2 t k1 k2) l1 l2 =
      if l1 = k1 then (if l2 = k2 then getN2 t k1 k2 + 1 else getN2 t k1 l2)
      else getN2 t l1 l2 := by
  rcases eq_or_ne l1 k1 with h | h <;>
    simp [getN2, row2_bump2, h, getN_bump]

theorem getN2_bump2_le (t : Tbl2 ℕ) (k1 k2 l1 l2 : String) :
    getN2 t l1 l2 ≤ getN2 (bump2 t k1 k2) l1 l2 := by
  rw [getN2_bump2]
  rcases eq_or_ne l1 k1 with h | h
  · rcases eq_or_ne l2 k2 with h2 | h2 <;> simp [h, h2]
  · simp [h]

theorem getN_bump_le (t : Tbl1 ℕ) (k k' : String) :
    getN t k' ≤ getN (bump t k) k' := by
  rw [getN_bump]
  rcases eq_or_ne k' k with h | h <;> simp [h]

theorem tkeys_bump2 (t : Tbl2 ℕ) (k1 k2 : String) :
    tkeys (bump2 t k1 k2) =
      if k1 ∈ tkeys t then tkeys t else tkeys t ++ [k1] := by
  induction t with
  | nil => simp [bump2]
  | cons hd tl ih =>
    obtain ⟨b, row⟩ := hd
    by_cases hbk : b = k1
    · subst hbk; simp [bump2]
    · have hkb : ¬ k1 = b := fun h => hbk h.symm
      rcases em (k1 ∈ tkeys tl) with hm | hm <;>
        simp [bump2, hbk, hm, hkb, ih]

theorem mem_tkeys_bump2 (t : Tbl2 ℕ) (k1 k2 a : String) :
    a ∈ tkeys (bump2 t k1 k2) ↔ a ∈ tkeys t ∨ a = k1 := by
  rw [tkeys_bump2]
  rcases em (k1 ∈ tkeys t) with hm | hm
  · rw [if_pos hm]
    constructor
    · exact Or.inl
    · rintro (h | rfl)
      · exact h
      · exact hm
  · rw [if_neg hm]
    simp

theorem mem_tkeys_of_getN_pos (t : Tbl1 ℕ) (k : String) (h : 0 < getN t k) :
    k ∈ tkeys t := by
  induction t with
  | nil => simp [getN, lookupD, List.lookup] at h
  | cons hd tl ih =>
    obtain ⟨a, v⟩ := hd
    by_cases hak : k = a
    · simp [hak]
    · have hf : (k == a) = false := beq_eq_false_iff_ne.mpr hak
      have h' : 0 < getN tl k := by
        simpa [getN, lookupD, List.lookup, hf] using h
      simp [ih h']

theorem lookup_eq_some_of_mem_tkeys {α : Type} (t : List (String × α)) (k : String)
    (h : k ∈ tkeys t) : ∃ v, List.lookup k t = some v := by
  induction t with
  | nil => simp at h
  | cons hd tl ih =>
    obtain ⟨a, v⟩ := hd
    by_cases hak : k = a
    · exact ⟨v, by simp [List.lookup, hak]⟩
    · have hf : (k == a) = false := beq_eq_false_iff_ne.mpr hak
      have h' : k ∈ tkeys tl := by
        rcases (by simpa using h : k = a ∨ k ∈ tkeys tl) with h | h
        · exact absurd h hak
        · exact h
      simpa [List.lookup, hf] using ih h'

theorem smGet1_of_lookup {α : Type} (t : Tbl1 α) (unkT k : String) (v : α)
    (h : List.lookup k t = some v) : smGet1 t unkT k = some v := by
  simp [smGet1, h]

theorem mem_tkeys_of_lookup {α : Type} (t : List (String × α)) (k : String)
    (v : α) (h : List.lookup k t = some v) : k ∈ tkeys t := by
  induction t with
  | nil => simp [List.lookup] at h
  | cons hd tl ih =>
    obtain ⟨a, w⟩ := hd
    by_cases hak : k = a
    · simp [hak]
    · have hf : (k == a) = false := beq_eq_false_iff_ne.mpr hak
      have := ih (by simpa [List.lookup, hf] using h)
      simp [this]

theorem smGet1_of_not_mem {α : Type} (t : Tbl1 α) (unkT k : String)
    (h : k ∉ tkeys t) : smGet1 t unkT k = List.lookup unkT t := by
  have hl : List.lookup k t = none := by
    cases hc : List.lookup k t with
    | none => rfl
    | some v => exact absurd (mem_tkeys_of_lookup t k v hc) h
  simp [smGet1, hl]

theorem smGet1_pos_of_getN_pos (t : Tbl1 ℕ) (unkT k : String)
    (h : 0 < getN t k) : 0 < (smGet1 t unkT k).getD 0 := by
  have hmem := mem_tkeys_of_getN_pos t k h
  obtain ⟨v, hv⟩ := lookup_eq_some_of_mem_tkeys t k hmem
  have : getN t k = v := by simp [getN, lookupD, hv]
  rw [smGet1_of_lookup t unkT k v hv]
  simpa [this] using h

theorem ne_nil_of_mem_tkeys {α : Type} {t : List (String × α)} {a : String}
    (h : a ∈ tkeys t) : t ≠ [] := by
  intro hnil; subst hnil; simp at h

theorem mem_tkeys_of_getN2_pos (t : Tbl2 ℕ) (k1 k2 : String)
    (h : 0 < getN2 t k1 k2) :
    k1 ∈ tkeys t ∧ k2 ∈ tkeys (row2 t k1) := by
  have hk2 : k2 ∈ tkeys (row2 t k1) := mem_tkeys_of_getN_pos _ _ h
  refine ⟨?_, hk2⟩
  by_contra hk1
  have hnone : List.lookup k1 t = none := by
    cases hc : List.lookup k1 t with
    | none => rfl
    | some v => exact absurd (mem_tkeys_of_lookup t k1 v hc) hk1
  have hrow : row2 t k1 = [] := by simp [row2, hnone]
  simp only [getN2, hrow] at h
  simp [getN, lookupD, List.lookup] at h

theorem nodup_tkeys_bump {t : Tbl1 ℕ} {k : String}
    (h : (tkeys t).Nodup) : (tkeys (bump t k)).Nodup := by
  rw [tkeys_bump]
  rcases em (k ∈ tkeys t) with hm | hm
  · simpa [hm]
  · simpa [hm] using List.Nodup.append h (by simp) (by simpa using hm)

theorem nodup_tkeys_bump2 {t : Tbl2 ℕ} {k1 k2 : String}
    (h : (tkeys t).Nodup) : (tkeys (bump2 t k1 k2)).Nodup := by
  rw [tkeys_bump2]
  rcases em (k1 ∈ tkeys t) with hm | hm
  · simpa [hm]
  · simpa [hm] using List.Nodup.append h (by simp) (by simpa using hm)

theorem row2_eq_of_mem_nodup {α : Type} {t : Tbl2 α} {k : String}
    {row : Tbl1 α} (hnd : (tkeys t).Nodup) (hmem : (k, row) ∈ t) :
    row2 t k = row := by
  induction t with
  | nil => simp at hmem
  | cons hd tl ih =>
    obtain ⟨a, r⟩ := hd
    have hnd' : (tkeys tl).Nodup := (List.nodup_cons.mp (by simpa using hnd)).2
    have hna : a ∉ tkeys tl := (List.nodup_cons.mp (by simpa using hnd)).1
    rcases List.mem_cons.mp hmem with heq | hmem'
    · obtain ⟨h1, h2⟩ := Prod.mk.inj heq
      subst h1; subst h2
      simp [row2, List.lookup]
    · have hka : k ≠ a := by
        intro hka; subst hka
        exact hna (by simpa [tkeys] using List.mem_map_of_mem Prod.fst hmem')
      have hf : (k == a) = false := beq_eq_false_iff_ne.mpr hka
      have := ih hnd' hmem'
      simpa [row2, List.lookup, hf] using this

/-- Folding preserves a predicate that every step preserves. -/
theorem foldl_induct {γ δ : Type} (P : γ → Prop) (step : γ → δ → γ)
    (l : List δ) (c : γ) (hstep : ∀ c x, x ∈ l → P c → P (step c x))
    (h : P c) : P (l.foldl step c) := by
  induction l generalizing c with
  | nil => simpa
  | cons hd tl ih =>
    exact ih (step c hd)
      (fun c x hx hPc => hstep c x (List.mem_cons_of_mem _ hx) hPc)
      (hstep c hd (List.mem_cons_self _ _) h)

/-- Folding only increases an ℕ-valued measure that every step increases. -/
theorem foldl_mono_nat {γ δ : Type} (f : γ → ℕ) (step : γ → δ → γ)
    (l : List δ) (c : γ) (hstep : ∀ c x, x ∈ l → f c ≤ f (step c x)) :
    f c ≤ f (l.foldl step c) := by
  induction l generalizing c with
  | nil => simp
  | cons hd tl ih =>
    calc f c ≤ f (step c hd) := hstep c hd (List.mem_cons_self _ _)
    _ ≤ f (tl.foldl step (step c hd)) :=
      ih (step c hd) (fun c x hx => hstep c x (List.mem_cons_of_mem _ hx))

/-- A double fold that hits the pair `(a, b)` makes the measure positive,
provided every step is monotone and the `(a, b)` step adds at least 1. -/
theorem doubleFold_pos {γ : Type} (step : γ → String → String → γ)
    (f : γ → ℕ) (l1 l2 : List String) (a b : String) (c : γ)
    (hmono : ∀ c x y, f c ≤ f (step c x y))
    (hhit : ∀ c, f c + 1 ≤ f (step c a b))
    (ha : a ∈ l1) (hb : b ∈ l2) :
    1 ≤ f (l1.foldl (fun c x => l2.foldl (fun c y => step c x y) c) c) := by
  have inner : ∀ c, 1 ≤ f (l2.foldl (fun c y => step c a y) c) := by
    intro c
    clear ha
    induction l2 generalizing c with
    | nil => simp at hb
    | cons hd tl ih =>
      rcases em (hd = b) with hbd | hbd
      · subst hbd
        have h1 : 1 ≤ f (step c a hd) := le_trans (by omega) (hhit c)
        calc (1 : ℕ) ≤ f (step c a hd) := h1
        _ ≤ f (tl.foldl (fun c y => step c a y) (step c a hd)) :=
          foldl_mono_nat f _ tl _ (fun c y _ => hmono c a y)
      · have hb' : b ∈ tl := by
          rcases List.mem_cons.mp hb with h | h
          · exact absurd h.symm hbd
          · exact h
        exact ih hb' (step c a hd)
  induction l1 generalizing c with
  | nil => simp at ha
  | cons hd tl ih =>
    rcases em (hd = a) with had | had
    · subst had
      calc (1 : ℕ) ≤ f (l2.foldl (fun c y => step c hd y) c) := inner c
      _ ≤ f (tl.foldl (fun c x => l2.foldl (fun c y => step c x y) c)
            (l2.foldl (fun c y => step c hd y) c)) :=
        foldl_mono_nat f _ tl _
          (fun c x _ => foldl_mono_nat f _ l2 c (fun c y _ => hmono c x y))
    · have ha' : a ∈ tl := by
        rcases List.mem_cons.mp ha with h | h
        · exact absurd h.symm had
        · exact h
      exact ih (l2.foldl (fun c y => step c hd y) c) ha'

/-!  ### Smoothing lemmas, parameter-only variant -/

theorem cpo_smoothCmdsStep_seq2_le (s e : String) (c : CPO.Counts)
    (x y a b : String) :
    getN2 c.seq2 a b ≤ getN2 (CPO.smoothCmdsStep s e c x y).seq2 a b := by
  unfold CPO.smoothCmdsStep
  split
  · simpa using getN2_bump2_le c.seq2 x y a b
  · exact le_refl _

theorem cpo_smoothCmdsStep_seq1_le (s e : String) (c : CPO.Counts)
    (x y a : String) :
    getN c.seq1 a ≤ getN (CPO.smoothCmdsStep s e c x y).seq1 a := by
  unfold CPO.smoothCmdsStep
  split
  · exact le_trans (getN_bump_le c.seq1 x a)
      (by simpa using getN_bump_le (bump c.seq1 x) y a)
  · exact le_refl _

theorem cpo_smoothCmds_seq2_pos (c : CPO.Counts) (cmds : List String)
    (s e c1 c2 : String) (h1 : c1 ∈ cmds) (h2 : c2 ∈ cmds)
    (hne1 : c1 ≠ e) (hne2 : c2 ≠ s) :
    1 ≤ getN2 (CPO.smoothCmds c cmds s e).seq2 c1 c2 := by
  unfold CPO.smoothCmds
  refine doubleFold_pos (CPO.smoothCmdsStep s e)
    (fun c => getN2 c.seq2 c1 c2) cmds cmds c1 c2 c
    (fun c x y => cpo_smoothCmdsStep_seq2_le s e c x y c1 c2)
    (fun c => ?_) h1 h2
  unfold CPO.smoothCmdsStep
  rw [if_pos ⟨hne1, hne2⟩]
  simp [getN2_bump2]

theorem cpo_smoothCmds_seq1_pos (c : CPO.Counts) (cmds : List String)
    (s e a : String) (ha : a ∈ cmds) (hne1 : a ≠ e) (hne2 : a ≠ s) :
    1 ≤ getN (CPO.smoothCmds c cmds s e).seq1 a := by
  unfold CPO.smoothCmds
  refine doubleFold_pos (CPO.smoothCmdsStep s e)
    (fun c => getN c.seq1 a) cmds cmds a a c
    (fun c x y => cpo_smoothCmdsStep_seq1_le s e c x y a)
    (fun c => ?_) ha ha
  unfold CPO.smoothCmdsStep
  rw [if_pos ⟨hne1, hne2⟩]
  simp [getN_bump]

theorem cpo_smoothCmdsStep_param (s e : String) (c : CPO.Counts)
    (x y : String) : (CPO.smoothCmdsStep s e c x y).param = c.param := by
  unfold CPO.smoothCmdsStep
  split <;> rfl

theorem cpo_smoothCmdsStep_cmdParam (s e : String) (c : CPO.Counts)
    (x y : String) :
    (CPO.smoothCmdsStep s e c x y).cmdParam = c.cmdParam := by
  unfold CPO.smoothCmdsStep
  split <;> rfl

theorem cpo_smoothCmds_param (c : CPO.Counts) (cmds : List String)
    (s e : String) : (CPO.smoothCmds c cmds s e).param = c.param := by
  unfold CPO.smoothCmds
  refine foldl_induct (fun x => x.param = c.param) _ cmds c ?_ rfl
  intro c' x _ h
  refine foldl_induct (fun x => x.param = c.param) _ cmds c' ?_ h
  intro c'' y _ h'
  rw [cpo_smoothCmdsStep_param]; exact h'

theorem cpo_smoothCmds_cmdParam (c : CPO.Counts) (cmds : List String)
    (s e : String) : (CPO.smoothCmds c cmds s e).cmdParam = c.cmdParam := by
  unfold CPO.smoothCmds
  refine foldl_induct (fun x => x.cmdParam = c.cmdParam) _ cmds c ?_ rfl
  intro c' x _ h
  refine foldl_induct (fun x => x.cmdParam = c.cmdParam) _ cmds c' ?_ h
  intro c'' y _ h'
  rw [cpo_smoothCmdsStep_cmdParam]; exact h'

theorem cpo_smoothParamsStep_seq1 (u : String) (c : CPO.Counts)
    (x y : String) : (CPO.smoothParamsStep u c x y).seq1 = c.seq1 := by
  unfold CPO.smoothParamsStep
  split <;> rfl

theorem cpo_smoothParamsStep_seq2 (u : String) (c : CPO.Counts)
    (x y : String) : (CPO.smoothParamsStep u c x y).seq2 = c.seq2 := by
  unfold CPO.smoothParamsStep
  split <;> rfl

theorem cpo_smoothParams_seq1 (c : CPO.Counts) (cmds params : List String)
    (u : String) : (CPO.smoothParams c cmds params u).seq1 = c.seq1 := by
  unfold CPO.smoothParams
  refine foldl_induct (fun x => x.seq1 = c.seq1) _ cmds c ?_ rfl
  intro c' x _ h
  refine foldl_induct (fun x => x.seq1 = c.seq1) _ params c' ?_ h
  intro c'' y _ h'
  rw [cpo_smoothParamsStep_seq1]; exact h'

theorem cpo_smoothParams_seq2 (c : CPO.Counts) (cmds params : List String)
    (u : String) : (CPO.smoothParams c cmds params u).seq2 = c.seq2 := by
  unfold CPO.smoothParams
  refine foldl_induct (fun x => x.seq2 = c.seq2) _ cmds c ?_ rfl
  intro c' x _ h
  refine foldl_induct (fun x => x.seq2 = c.seq2) _ params c' ?_ h
  intro c'' y _ h'
  rw [cpo_smoothParamsStep_seq2]; exact h'

theorem cpo_smoothParamsStep_param_le (u : String) (c : CPO.Counts)
    (x y a : String) :
    getN c.param a ≤ getN (CPO.smoothParamsStep u c x y).param a := by
  unfold CPO.smoothParamsStep
  split
  · simpa using getN_bump_le c.param y a
  · exact le_refl _

theorem cpo_smoothParamsStep_cmdParam_le (u : String) (c : CPO.Counts)
    (x y a b : String) :
    getN2 c.cmdParam a b ≤ getN2 (CPO.smoothParamsStep u c x y).cmdParam a b := by
  unfold CPO.smoothParamsStep
  split
  · simpa using getN2_bump2_le c.cmdParam x y a b
  · exact le_refl _

theorem cpo_smoothParams_param_pos (c : CPO.Counts) (cmds params : List String)
    (u : String) (hc : u ∈ cmds) (hp : u ∈ params) :
    1 ≤ getN (CPO.smoothParams c cmds params u).param u := by
  unfold CPO.smoothParams
  refine doubleFold_pos (CPO.smoothParamsStep u)
    (fun c => getN c.param u) cmds params u u c
    (fun c x y => cpo_smoothParamsStep_param_le u c x y u)
    (fun c => ?_) hc hp
  unfold CPO.smoothParamsStep
  rw [if_pos (Or.inr rfl)]
  simp [getN_bump]

theorem cpo_paramsFold_facts (name : String) (ps : List String)
    (c1 : CPO.Counts) (nd1 : (tkeys c1.param).Nodup)
    (nd2 : (tkeys c1.cmdParam).Nodup) :
    (fun c : CPO.Counts => c.seq1 = c1.seq1 ∧ c.seq2 = c1.seq2 ∧
      (∀ k ∈ tkeys c.cmdParam, k ∈ tkeys c1.cmdParam ∨ k = name) ∧
      (tkeys c.param).Nodup ∧ (tkeys c.cmdParam).Nodup)
    (ps.foldl (fun c p =>
      { c with param := bump c.param p
               cmdParam := bump2 c.cmdParam name p }) c1) := by
  refine foldl_induct
    (fun c : CPO.Counts => c.seq1 = c1.seq1 ∧ c.seq2 = c1.seq2 ∧
      (∀ k ∈ tkeys c.cmdParam, k ∈ tkeys c1.cmdParam ∨ k = name) ∧
      (tkeys c.param).Nodup ∧ (tkeys c.cmdParam).Nodup)
    _ ps c1 ?_ ⟨rfl, rfl, fun k hk => Or.inl hk, nd1, nd2⟩
  rintro c p hp ⟨h1, h2, h3, h4, h5⟩
  refine ⟨h1, h2, ?_, nodup_tkeys_bump h4, nodup_tkeys_bump2 h5⟩
  intro k hk
  rcases (mem_tkeys_bump2 _ _ _ _).mp hk with hk | hk
  · exact h3 k hk
  · exact Or.inr hk

theorem cpo_countCmd_inv (e : String) (st : CPO.Counts × String)
    (cmd : CPO.Cmd) (hname : cmd.name ≠ e)
    (h : CPO.InvCnt e st.1 ∧ st.2 ∈ tkeys st.1.seq1 ∧ st.2 ≠ e) :
    CPO.InvCnt e (CPO.countCmd st cmd).1 ∧
      (CPO.countCmd st cmd).2 ∈ tkeys (CPO.countCmd st cmd).1.seq1 ∧
      (CPO.countCmd st cmd).2 ≠ e := by
  obtain ⟨⟨hS2, hCP, nd1, nd2, nd3, nd4⟩, hprev, hprevne⟩ := h
  have hmono : ∀ k, k ∈ tkeys st.1.seq1 →
      k ∈ tkeys (bump st.1.seq1 cmd.name) :=
    fun k hk => (mem_tkeys_bump _ _ _).mpr (Or.inl hk)
  have hnamemem : cmd.name ∈ tkeys (bump st.1.seq1 cmd.name) :=
    (mem_tkeys_bump _ _ _).mpr (Or.inr rfl)
  obtain ⟨h1, h2, h3, h4, h5⟩ := cpo_paramsFold_facts cmd.name cmd.params
    { st.1 with
      seq1 := bump st.1.seq1 cmd.name
      seq2 := bump2 st.1.seq2 st.2 cmd.name } nd3 nd4
  simp only [CPO.countCmd]
  refine ⟨⟨?_, ?_, ?_, ?_, ?_, ?_⟩, ?_, hname⟩
  · intro k hk
    rw [h2] at hk
    rw [h1]
    rcases (mem_tkeys_bump2 _ _ _ _).mp hk with hk | hk
    · exact ⟨hmono k (hS2 k hk).1, (hS2 k hk).2⟩
    · subst hk; exact ⟨hmono _ hprev, hprevne⟩
  · intro k hk
    rw [h1]
    rcases h3 k hk with hk | hk
    · exact hmono k (hCP k hk)
    · subst hk; exact hnamemem
  · rw [h1]; exact nodup_tkeys_bump nd1
  · rw [h2]; exact nodup_tkeys_bump2 nd2
  · exact h4
  · exact h5
  · rw [h1]; exact hnamemem

theorem cpo_countSession_inv (s e : String) (c : CPO.Counts)
    (sess : List CPO.Cmd) (hse : s ≠ e)
    (hnoe : ∀ cmd ∈ sess, cmd.name ≠ e) (h : CPO.InvCnt e c) :
    CPO.InvCnt e (CPO.countSession c s e sess) := by
  have hbase : CPO.InvCnt e { c with seq1 := bump c.seq1 s } ∧
      s ∈ tkeys (bump c.seq1 s) ∧ s ≠ e := by
    obtain ⟨hS2, hCP, nd1, nd2, nd3, nd4⟩ := h
    refine ⟨⟨?_, ?_, nodup_tkeys_bump nd1, nd2, nd3, nd4⟩,
      (mem_tkeys_bump _ _ _).mpr (Or.inr rfl), hse⟩
    · intro k hk
      exact ⟨(mem_tkeys_bump _ _ _).mpr (Or.inl (hS2 k hk).1), (hS2 k hk).2⟩
    · intro k hk
      exact (mem_tkeys_bump _ _ _).mpr (Or.inl (hCP k hk))
  have hfold := foldl_induct
    (fun st : CPO.Counts × String =>
      CPO.InvCnt e st.1 ∧ st.2 ∈ tkeys st.1.seq1 ∧ st.2 ≠ e)
    CPO.countCmd sess ({ c with seq1 := bump c.seq1 s }, s)
    (fun st cmd hmem hst => cpo_countCmd_inv e st cmd (hnoe cmd hmem) hst)
    hbase
  set st := sess.foldl CPO.countCmd ({ c with seq1 := bump c.seq1 s }, s)
  obtain ⟨⟨hS2, hCP, nd1, nd2, nd3, nd4⟩, hprev, hprevne⟩ := hfold
  unfold CPO.countSession
  refine ⟨?_, ?_, nodup_tkeys_bump nd1, nodup_tkeys_bump2 nd2, nd3, nd4⟩
  · intro k hk
    rcases (mem_tkeys_bump2 _ _ _ _).mp hk with hk | hk
    · exact ⟨(mem_tkeys_bump _ _ _).mpr (Or.inl (hS2 k hk).1), (hS2 k hk).2⟩
    · subst hk; exact ⟨(mem_tkeys_bump _ _ _).mpr (Or.inl hprev), hprevne⟩
  · intro k hk
    exact (mem_tkeys_bump _ _ _).mpr (Or.inl (hCP k hk))

theorem cpo_countingPass_inv (sessions : List (List CPO.Cmd)) (s e : String)
    (hse : s ≠ e)
    (hnoe : ∀ sess ∈ sessions, ∀ cmd ∈ sess, cmd.name ≠ e) :
    CPO.InvCnt e (CPO.countingPass sessions s e) := by
  unfold CPO.countingPass
  refine foldl_induct (CPO.InvCnt e) _ sessions _ ?_ ?_
  · intro c sess hmem hc
    exact cpo_countSession_inv s e c sess hse (hnoe sess hmem) hc
  · exact ⟨by simp, by simp, by simp [tkeys], by simp [tkeys],
      by simp [tkeys], by simp [tkeys]⟩

theorem cpo_smoothParams_cmdParam_pos (c : CPO.Counts)
    (cmds params : List String) (u cmd : String) (hc : cmd ∈ cmds)
    (hp : u ∈ params) :
    1 ≤ getN2 (CPO.smoothParams c cmds params u).cmdParam cmd u := by
  unfold CPO.smoothParams
  refine doubleFold_pos (CPO.smoothParamsStep u)
    (fun c => getN2 c.cmdParam cmd u) cmds params cmd u c
    (fun c x y => cpo_smoothParamsStep_cmdParam_le u c x y cmd u)
    (fun c => ?_) hc hp
  unfold CPO.smoothParamsStep
  rw [if_pos (Or.inr rfl)]
  simp [getN2_bump2]

theorem cpo_smoothCmds_facts (c : CPO.Counts) (cmds : List String)
    (s e : String) (nd1 : (tkeys c.seq1).Nodup)
    (nd2 : (tkeys c.seq2).Nodup) :
    (fun x : CPO.Counts =>
      (∀ k ∈ tkeys x.seq2, k ∈ tkeys c.seq2 ∨ (k ∈ cmds ∧ k ≠ e)) ∧
      (tkeys x.seq1).Nodup ∧ (tkeys x.seq2).Nodup)
    (CPO.smoothCmds c cmds s e) := by
  unfold CPO.smoothCmds
  refine foldl_induct
    (fun x : CPO.Counts =>
      (∀ k ∈ tkeys x.seq2, k ∈ tkeys c.seq2 ∨ (k ∈ cmds ∧ k ≠ e)) ∧
      (tkeys x.seq1).Nodup ∧ (tkeys x.seq2).Nodup)
    _ cmds c ?_ ⟨fun k hk => Or.inl hk, nd1, nd2⟩
  intro x c1 hc1 hx
  refine foldl_induct
    (fun x : CPO.Counts =>
      (∀ k ∈ tkeys x.seq2, k ∈ tkeys c.seq2 ∨ (k ∈ cmds ∧ k ≠ e)) ∧
      (tkeys x.seq1).Nodup ∧ (tkeys x.seq2).Nodup)
    _ cmds x ?_ hx
  rintro y c2 hc2 ⟨hkeys, hnd1, hnd2⟩
  unfold CPO.smoothCmdsStep
  split
  · next hg =>
    refine ⟨?_, nodup_tkeys_bump (nodup_tkeys_bump hnd1), nodup_tkeys_bump2 hnd2⟩
    intro k hk
    rcases (mem_tkeys_bump2 _ _ _ _).mp hk with hk | hk
    · exact hkeys k hk
    · subst hk; exact Or.inr ⟨hc1, hg.1⟩
  · exact ⟨hkeys, hnd1, hnd2⟩

theorem cpo_smoothParams_facts (c : CPO.Counts) (cmds params : List String)
    (u : String) (nd3 : (tkeys c.param).Nodup)
    (nd4 : (tkeys c.cmdParam).Nodup) :
    (fun x : CPO.Counts =>
      (∀ k ∈ tkeys x.cmdParam, k ∈ tkeys c.cmdParam ∨ k ∈ cmds) ∧
      (tkeys x.param).Nodup ∧ (tkeys x.cmdParam).Nodup)
    (CPO.smoothParams c cmds params u) := by
  unfold CPO.smoothParams
  refine foldl_induct
    (fun x : CPO.Counts =>
      (∀ k ∈ tkeys x.cmdParam, k ∈ tkeys c.cmdParam ∨ k ∈ cmds) ∧
      (tkeys x.param).Nodup ∧ (tkeys x.cmdParam).Nodup)
    _ cmds c ?_ ⟨fun k hk => Or.inl hk, nd3, nd4⟩
  intro x cmd hcmd hx
  refine foldl_induct
    (fun x : CPO.Counts =>
      (∀ k ∈ tkeys x.cmdParam, k ∈ tkeys c.cmdParam ∨ k ∈ cmds) ∧
      (tkeys x.param).Nodup ∧ (tkeys x.cmdParam).Nodup)
    _ params x ?_ hx
  rintro y p hp ⟨hkeys, hnd3, hnd4⟩
  unfold CPO.smoothParamsStep
  split
  · refine ⟨?_, nodup_tkeys_bump hnd3, nodup_tkeys_bump2 hnd4⟩
    intro k hk
    rcases (mem_tkeys_bump2 _ _ _ _).mp hk with hk | hk
    · exact hkeys k hk
    · subst hk; exact Or.inr hcmd
  · exact ⟨hkeys, hnd3, hnd4⟩

theorem cpo_counts_valid (sessions : List (List CPO.Cmd)) (s e u : String)
    (hse : s ≠ e) (hsu : s ≠ u) (heu : e ≠ u)
    (hnoe : ∀ sess ∈ sessions, ∀ cmd ∈ sess, cmd.name ≠ e) :
    valid1 (CPO.computeCountsRaw sessions s e u).seq1 u ∧
    valid2 (CPO.computeCountsRaw sessions s e u).seq2 u ∧
    valid1 (CPO.computeCountsRaw sessions s e u).param u ∧
    valid2 (CPO.computeCountsRaw sessions s e u).cmdParam u := by
  obtain ⟨hS2, hCP, nd1, nd2, nd3, nd4⟩ :=
    cpo_countingPass_inv sessions s e hse hnoe
  have hue : u ≠ e := Ne.symm heu
  have hus : u ≠ s := Ne.symm hsu
  have huv : u ∈ CPO.cmdsVocab sessions s e u :=
    List.mem_append_right _ (by simp)
  obtain ⟨hK2, snd1, snd2⟩ :=
    cpo_smoothCmds_facts (CPO.countingPass sessions s e)
      (CPO.cmdsVocab sessions s e u) s e nd1 nd2
  set cnt := CPO.countingPass sessions s e with hcnt
  set vocab := CPO.cmdsVocab sessions s e u with hvocab
  set sm := CPO.smoothCmds cnt vocab s e with hsm
  have hsmp : sm.param = cnt.param := cpo_smoothCmds_param cnt vocab s e
  have hsmcp : sm.cmdParam = cnt.cmdParam :=
    cpo_smoothCmds_cmdParam cnt vocab s e
  set params := tkeys sm.param ++ [u] with hparams
  have hup : u ∈ params := List.mem_append_right _ (by simp)
  obtain ⟨hKcp, pnd3, pnd4⟩ :=
    cpo_smoothParams_facts sm vocab params u (by rw [hsmp]; exact nd3)
      (by rw [hsmcp]; exact nd4)
  set raw := CPO.smoothParams sm vocab params u with hraw
  have hraweq : CPO.computeCountsRaw sessions s e u = raw := by
    simp only [CPO.computeCountsRaw, hraw, hsm, hvocab, hcnt, hparams]
  rw [hraweq]
  have hr1 : raw.seq1 = sm.seq1 := cpo_smoothParams_seq1 sm vocab params u
  have hr2 : raw.seq2 = sm.seq2 := cpo_smoothParams_seq2 sm vocab params u
  -- headline memberships via smoothing positivity
  have hseq1u : u ∈ tkeys raw.seq1 := by
    rw [hr1]
    exact mem_tkeys_of_getN_pos _ _
      (cpo_smoothCmds_seq1_pos cnt vocab s e u huv hue hus)
  have hseq2u : u ∈ tkeys raw.seq2 := by
    rw [hr2]
    exact (mem_tkeys_of_getN2_pos _ _ _
      (cpo_smoothCmds_seq2_pos cnt vocab s e u u huv huv hue hus)).1
  have hparamu : u ∈ tkeys raw.param :=
    mem_tkeys_of_getN_pos _ _
      (cpo_smoothParams_param_pos sm vocab params u huv hup)
  have hcpu : u ∈ tkeys raw.cmdParam :=
    (mem_tkeys_of_getN2_pos _ _ _
      (cpo_smoothParams_cmdParam_pos sm vocab params u u huv hup)).1
  refine ⟨⟨ne_nil_of_mem_tkeys hseq1u, hseq1u⟩,
    ⟨ne_nil_of_mem_tkeys hseq2u, hseq2u, ?_⟩,
    ⟨ne_nil_of_mem_tkeys hparamu, hparamu⟩,
    ⟨ne_nil_of_mem_tkeys hcpu, hcpu, ?_⟩⟩
  · -- every row of seq2 contains the unknown token
    rintro ⟨k, row⟩ hr
    have hkmem : k ∈ tkeys raw.seq2 := by
      simpa [tkeys] using List.mem_map_of_mem Prod.fst hr
    have hkv : k ∈ vocab ∧ k ≠ e := by
      rcases hK2 k (by rw [hr2] at hkmem; exact hkmem) with hk | hk
      · exact ⟨List.mem_append_left _ (hS2 k hk).1, (hS2 k hk).2⟩
      · exact hk
    have hpos := cpo_smoothCmds_seq2_pos cnt vocab s e k u hkv.1 huv hkv.2 hus
    have humem : u ∈ tkeys (row2 sm.seq2 k) :=
      (mem_tkeys_of_getN2_pos _ _ _ hpos).2
    have hrow : row2 sm.seq2 k = row := by
      rw [← hr2]
      exact row2_eq_of_mem_nodup (by rw [hr2]; exact snd2)
        (by rw [hr2] at hr ⊢; exact hr)
    simpa [hrow] using humem
  · -- every row of cmd_param_counts contains the unknown token
    rintro ⟨k, row⟩ hr
    have hkmem : k ∈ tkeys raw.cmdParam := by
      simpa [tkeys] using List.mem_map_of_mem Prod.fst hr
    have hkv : k ∈ vocab := by
      rcases hKcp k hkmem with hk | hk
      · rw [hsmcp] at hk
        exact List.mem_append_left _ (hCP k hk)
      · exact hk
    have hpos := cpo_smoothParams_cmdParam_pos sm vocab params u k hkv hup
    have humem : u ∈ tkeys (row2 raw.cmdParam k) :=
      (mem_tkeys_of_getN2_pos _ _ _ hpos).2
    have hrow : row2 raw.cmdParam k = row := row2_eq_of_mem_nodup pnd4 hr
    simpa [hrow] using humem

/-!  ### Smoothing lemmas, value-aware variant -/

theorem cpv_smoothCmdsStep_seq2_le (s e : String) (c : CPV.Counts)
    (x y a b : String) :
    getN2 c.seq2 a b ≤ getN2 (CPV.smoothCmdsStep s e c x y).seq2 a b := by
  unfold CPV.smoothCmdsStep
  split
  · simpa using getN2_bump2_le c.seq2 x y a b
  · exact le_refl _

theorem cpv_smoothCmdsStep_seq1_le (s e : String) (c : CPV.Counts)
    (x y a : String) :
    getN c.seq1 a ≤ getN (CPV.smoothCmdsStep s e c x y).seq1 a := by
  unfold CPV.smoothCmdsStep
  split
  · exact le_trans (getN_bump_le c.seq1 x a)
      (by simpa using getN_bump_le (bump c.seq1 x) y a)
  · exact le_refl _

theorem cpv_smoothCmds_seq2_pos (c : CPV.Counts) (cmds : List String)
    (s e c1 c2 : String) (h1 : c1 ∈ cmds) (h2 : c2 ∈ cmds)
    (hne1 : c1 ≠ e) (hne2 : c2 ≠ s) :
    1 ≤ getN2 (CPV.smoothCmds c cmds s e).seq2 c1 c2 := by
  unfold CPV.smoothCmds
  refine doubleFold_pos (CPV.smoothCmdsStep s e)
    (fun c => getN2 c.seq2 c1 c2) cmds cmds c1 c2 c
    (fun c x y => cpv_smoothCmdsStep_seq2_le s e c x y c1 c2)
    (fun c => ?_) h1 h2
  unfold CPV.smoothCmdsStep
  rw [if_pos ⟨hne1, hne2⟩]
  simp [getN2_bump2]

theorem cpv_smoothCmds_seq1_pos (c : CPV.Counts) (cmds : List String)
    (s e a : String) (ha : a ∈ cmds) (hne1 : a ≠ e) (hne2 : a ≠ s) :
    1 ≤ getN (CPV.smoothCmds c cmds s e).seq1 a := by
  unfold CPV.smoothCmds
  refine doubleFold_pos (CPV.smoothCmdsStep s e)
    (fun c => getN c.seq1 a) cmds cmds a a c
    (fun c x y => cpv_smoothCmdsStep_seq1_le s e c x y a)
    (fun c => ?_) ha ha
  unfold CPV.smoothCmdsStep
  rw [if_pos ⟨hne1, hne2⟩]
  simp [getN_bump]

theorem cpv_smoothCmds_others (c : CPV.Counts) (cmds : List String)
    (s e : String) :
    (CPV.smoothCmds c cmds s e).param = c.param ∧
    (CPV.smoothCmds c cmds s e).cmdParam = c.cmdParam ∧
    (CPV.smoothCmds c cmds s e).value = c.value ∧
    (CPV.smoothCmds c cmds s e).paramValue = c.paramValue := by
  unfold CPV.smoothCmds
  refine foldl_induct
    (fun x : CPV.Counts => x.param = c.param ∧ x.cmdParam = c.cmdParam ∧
      x.value = c.value ∧ x.paramValue = c.paramValue)
    _ cmds c ?_ ⟨rfl, rfl, rfl, rfl⟩
  intro x c1 hc1 hx
  refine foldl_induct
    (fun x : CPV.Counts => x.param = c.param ∧ x.cmdParam = c.cmdParam ∧
      x.value = c.value ∧ x.paramValue = c.paramValue)
    _ cmds x ?_ hx
  rintro y c2 hc2 ⟨h1, h2, h3, h4⟩
  unfold CPV.smoothCmdsStep
  split <;> exact ⟨h1, h2, h3, h4⟩

theorem cpv_smoothParams_others (c : CPV.Counts) (cmds params : List String)
    (u : String) :
    (CPV.smoothParams c cmds params u).seq1 = c.seq1 ∧
    (CPV.smoothParams c cmds params u).seq2 = c.seq2 ∧
    (CPV.smoothParams c cmds params u).value = c.value ∧
    (CPV.smoothParams c cmds params u).paramValue = c.paramValue := by
  unfold CPV.smoothParams
  refine foldl_induct
    (fun x : CPV.Counts => x.seq1 = c.seq1 ∧ x.seq2 = c.seq2 ∧
      x.value = c.value ∧ x.paramValue = c.paramValue)
    _ cmds c ?_ ⟨rfl, rfl, rfl, rfl⟩
  intro x cmd hcmd hx
  refine foldl_induct
    (fun x : CPV.Counts => x.seq1 = c.seq1 ∧ x.seq2 = c.seq2 ∧
      x.value = c.value ∧ x.paramValue = c.paramValue)
    _ params x ?_ hx
  rintro y p hp ⟨h1, h2, h3, h4⟩
  unfold CPV.smoothParamsStep
  split <;> exact ⟨h1, h2, h3, h4⟩

theorem cpv_smoothValues_others (c : CPV.Counts) (params values : List String)
    (u : String) :
    (CPV.smoothValues c params values u).seq1 = c.seq1 ∧
    (CPV.smoothValues c params values u).seq2 = c.seq2 ∧
    (CPV.smoothValues c params values u).param = c.param ∧
    (CPV.smoothValues c params values u).cmdParam = c.cmdParam := by
  unfold CPV.smoothValues
  refine foldl_induct
    (fun x : CPV.Counts => x.seq1 = c.seq1 ∧ x.seq2 = c.seq2 ∧
      x.param = c.param ∧ x.cmdParam = c.cmdParam)
    _ params c ?_ ⟨rfl, rfl, rfl, rfl⟩
  intro x p hp hx
  refine foldl_induct
    (fun x : CPV.Counts => x.seq1 = c.seq1 ∧ x.seq2 = c.seq2 ∧
      x.param = c.param ∧ x.cmdParam = c.cmdParam)
    _ values x ?_ hx
  rintro y v hv ⟨h1, h2, h3, h4⟩
  unfold CPV.smoothValuesStep
  split <;> exact ⟨h1, h2, h3, h4⟩

theorem cpv_smoothParamsStep_param_le (u : String) (c : CPV.Counts)
    (x y a : String) :
    getN c.param a ≤ getN (CPV.smoothParamsStep u c x y).param a := by
  unfold CPV.smoothParamsStep
  split
  · simpa using getN_bump_le c.param y a
  · exact le_refl _

theorem cpv_smoothParamsStep_cmdParam_le (u : String) (c : CPV.Counts)
    (x y a b : String) :
    getN2 c.cmdParam a b ≤ getN2 (CPV.smoothParamsStep u c x y).cmdParam a b := by
  unfold CPV.smoothParamsStep
  split
  · simpa using getN2_bump2_le c.cmdParam x y a b
  · exact le_refl _

theorem cpv_smoothParams_param_pos (c : CPV.Counts) (cmds params : List String)
    (u : String) (hc : u ∈ cmds) (hp : u ∈ params) :
    1 ≤ getN (CPV.smoothParams c cmds params u).param u := by
  unfold CPV.smoothParams
  refine doubleFold_pos (CPV.smoothParamsStep u)
    (fun c => getN c.param u) cmds params u u c
    (fun c x y => cpv_smoothParamsStep_param_le u c x y u)
    (fun c => ?_) hc hp
  unfold CPV.smoothParamsStep
  rw [if_pos (Or.inr rfl)]
  simp [getN_bump]

theorem cpv_smoothParams_cmdParam_pos (c : CPV.Counts)
    (cmds params : List String) (u cmd : String) (hc : cmd ∈ cmds)
    (hp : u ∈ params) :
    1 ≤ getN2 (CPV.smoothParams c cmds params u).cmdParam cmd u := by
  unfold CPV.smoothParams
  refine doubleFold_pos (CPV.smoothParamsStep u)
    (fun c => getN2 c.cmdParam cmd u) cmds params cmd u c
    (fun c x y => cpv_smoothParamsStep_cmdParam_le u c x y cmd u)
    (fun c => ?_) hc hp
  unfold CPV.smoothParamsStep
  rw [if_pos (Or.inr rfl)]
  simp [getN2_bump2]

theorem cpv_smoothValuesStep_value_le (u : String) (c : CPV.Counts)
    (x y a : String) :
    getN c.value a ≤ getN (CPV.smoothValuesStep u c x y).value a := by
  unfold CPV.smoothValuesStep
  split
  · simpa using getN_bump_le c.value y a
  · exact le_refl _

theorem cpv_smoothValuesStep_paramValue_le (u : String) (c : CPV.Counts)
    (x y a b : String) :
    getN2 c.paramValue a b ≤
      getN2 (CPV.smoothValuesStep u c x y).paramValue a b := by
  unfold CPV.smoothValuesStep
  split
  · simpa using getN2_bump2_le c.paramValue x y a b
  · exact le_refl _

theorem cpv_smoothValues_value_pos (c : CPV.Counts) (params values : List String)
    (u : String) (hp : u ∈ params) (hv : u ∈ values) :
    1 ≤ getN (CPV.smoothValues c params values u).value u := by
  unfold CPV.smoothValues
  refine doubleFold_pos (CPV.smoothValuesStep u)
    (fun c => getN c.value u) params values u u c
    (fun c x y => cpv_smoothValuesStep_value_le u c x y u)
    (fun c => ?_) hp hv
  unfold CPV.smoothValuesStep
  rw [if_pos (Or.inr rfl)]
  simp [getN_bump]

theorem cpv_smoothValues_paramValue_pos (c : CPV.Counts)
    (params values : List String) (u p : String) (hp : p ∈ params)
    (hv : u ∈ values) :
    1 ≤ getN2 (CPV.smoothValues c params values u).paramValue p u := by
  unfold CPV.smoothValues
  refine doubleFold_pos (CPV.smoothValuesStep u)
    (fun c => getN2 c.paramValue p u) params values p u c
    (fun c x y => cpv_smoothValuesStep_paramValue_le u c x y p u)
    (fun c => ?_) hp hv
  unfold CPV.smoothValuesStep
  rw [if_pos (Or.inr rfl)]
  simp [getN2_bump2]

theorem cpv_smoothCmds_facts (c : CPV.Counts) (cmds : List String)
    (s e : String) (nd1 : (tkeys c.seq1).Nodup)
    (nd2 : (tkeys c.seq2).Nodup) :
    (fun x : CPV.Counts =>
      (∀ k ∈ tkeys x.seq2, k ∈ tkeys c.seq2 ∨ (k ∈ cmds ∧ k ≠ e)) ∧
      (tkeys x.seq1).Nodup ∧ (tkeys x.seq2).Nodup)
    (CPV.smoothCmds c cmds s e) := by
  unfold CPV.smoothCmds
  refine foldl_induct
    (fun x : CPV.Counts =>
      (∀ k ∈ tkeys x.seq2, k ∈ tkeys c.seq2 ∨ (k ∈ cmds ∧ k ≠ e)) ∧
      (tkeys x.seq1).Nodup ∧ (tkeys x.seq2).Nodup)
    _ cmds c ?_ ⟨fun k hk => Or.inl hk, nd1, nd2⟩
  intro x c1 hc1 hx
  refine foldl_induct
    (fun x : CPV.Counts =>
      (∀ k ∈ tkeys x.seq2, k ∈ tkeys c.seq2 ∨ (k ∈ cmds ∧ k ≠ e)) ∧
      (tkeys x.seq1).Nodup ∧ (tkeys x.seq2).Nodup)
    _ cmds x ?_ hx
  rintro y c2 hc2 ⟨hkeys, hnd1, hnd2⟩
  unfold CPV.smoothCmdsStep
  split
  · next hg =>
    refine ⟨?_, nodup_tkeys_bump (nodup_tkeys_bump hnd1), nodup_tkeys_bump2 hnd2⟩
    intro k hk
    rcases (mem_tkeys_bump2 _ _ _ _).mp hk with hk | hk
    · exact hkeys k hk
    · subst hk; exact Or.inr ⟨hc1, hg.1⟩
  · exact ⟨hkeys, hnd1, hnd2⟩

theorem cpv_smoothParams_facts (c : CPV.Counts) (cmds params : List String)
    (u : String) (nd3 : (tkeys c.param).Nodup)
    (nd4 : (tkeys c.cmdParam).Nodup) :
    (fun x : CPV.Counts =>
      (∀ k ∈ tkeys x.cmdParam, k ∈ tkeys c.cmdParam ∨ k ∈ cmds) ∧
      (tkeys x.param).Nodup ∧ (tkeys x.cmdParam).Nodup)
    (CPV.smoothParams c cmds params u) := by
  unfold CPV.smoothParams
  refine foldl_induct
    (fun x : CPV.Counts =>
      (∀ k ∈ tkeys x.cmdParam, k ∈ tkeys c.cmdParam ∨ k ∈ cmds) ∧
      (tkeys x.param).Nodup ∧ (tkeys x.cmdParam).Nodup)
    _ cmds c ?_ ⟨fun k hk => Or.inl hk, nd3, nd4⟩
  intro x cmd hcmd hx
  refine foldl_induct
    (fun x : CPV.Counts =>
      (∀ k ∈ tkeys x.cmdParam, k ∈ tkeys c.cmdParam ∨ k ∈ cmds) ∧
      (tkeys x.param).Nodup ∧ (tkeys x.cmdParam).Nodup)
    _ params x ?_ hx
  rintro y p hp ⟨hkeys, hnd3, hnd4⟩
  unfold CPV.smoothParamsStep
  split
  · refine ⟨?_, nodup_tkeys_bump hnd3, nodup_tkeys_bump2 hnd4⟩
    intro k hk
    rcases (mem_tkeys_bump2 _ _ _ _).mp hk with hk | hk
    · exact hkeys k hk
    · subst hk; exact Or.inr hcmd
  · exact ⟨hkeys, hnd3, hnd4⟩

theorem cpv_smoothValues_facts (c : CPV.Counts) (params values : List String)
    (u : String) (nd5 : (tkeys c.value).Nodup)
    (nd6 : (tkeys c.paramValue).Nodup) :
    (fun x : CPV.Counts =>
      (∀ k ∈ tkeys x.paramValue, k ∈ tkeys c.paramValue ∨ k ∈ params) ∧
      (tkeys x.value).Nodup ∧ (tkeys x.paramValue).Nodup)
    (CPV.smoothValues c params values u) := by
  unfold CPV.smoothValues
  refine foldl_induct
    (fun x : CPV.Counts =>
      (∀ k ∈ tkeys x.paramValue, k ∈ tkeys c.paramValue ∨ k ∈ params) ∧
      (tkeys x.value).Nodup ∧ (tkeys x.paramValue).Nodup)
    _ params c ?_ ⟨fun k hk => Or.inl hk, nd5, nd6⟩
  intro x p hp hx
  refine foldl_induct
    (fun x : CPV.Counts =>
      (∀ k ∈ tkeys x.paramValue, k ∈ tkeys c.paramValue ∨ k ∈ params) ∧
      (tkeys x.value).Nodup ∧ (tkeys x.paramValue).Nodup)
    _ values x ?_ hx
  rintro y v hv ⟨hkeys, hnd5, hnd6⟩
  unfold CPV.smoothValuesStep
  split
  · refine ⟨?_, nodup_tkeys_bump hnd5, nodup_tkeys_bump2 hnd6⟩
    intro k hk
    rcases (mem_tkeys_bump2 _ _ _ _).mp hk with hk | hk
    · exact hkeys k hk
    · subst hk; exact Or.inr hp
  · exact ⟨hkeys, hnd5, hnd6⟩

theorem cpv_paramsFold_facts (name : String) (ps : List (String × String))
    (c1 : CPV.Counts) (h0 : ∀ k ∈ tkeys c1.paramValue, k ∈ tkeys c1.param)
    (nd3 : (tkeys c1.param).Nodup) (nd4 : (tkeys c1.cmdParam).Nodup)
    (nd5 : (tkeys c1.value).Nodup) (nd6 : (tkeys c1.paramValue).Nodup) :
    (fun c : CPV.Counts => c.seq1 = c1.seq1 ∧ c.seq2 = c1.seq2 ∧
      (∀ k ∈ tkeys c.cmdParam, k ∈ tkeys c1.cmdParam ∨ k = name) ∧
      (∀ k ∈ tkeys c.paramValue, k ∈ tkeys c.param) ∧
      (tkeys c.param).Nodup ∧ (tkeys c.cmdParam).Nodup ∧
      (tkeys c.value).Nodup ∧ (tkeys c.paramValue).Nodup)
    (ps.foldl (fun c pv =>
      { c with param := bump c.param pv.1
               value := bump c.value pv.2
               cmdParam := bump2 c.cmdParam name pv.1
               paramValue := bump2 c.paramValue pv.1 pv.2 }) c1) := by
  refine foldl_induct
    (fun c : CPV.Counts => c.seq1 = c1.seq1 ∧ c.seq2 = c1.seq2 ∧
      (∀ k ∈ tkeys c.cmdParam, k ∈ tkeys c1.cmdParam ∨ k = name) ∧
      (∀ k ∈ tkeys c.paramValue, k ∈ tkeys c.param) ∧
      (tkeys c.param).Nodup ∧ (tkeys c.cmdParam).Nodup ∧
      (tkeys c.value).Nodup ∧ (tkeys c.paramValue).Nodup)
    _ ps c1 ?_ ⟨rfl, rfl, fun k hk => Or.inl hk, h0, nd3, nd4, nd5, nd6⟩
  rintro c pv hpv ⟨h1, h2, h3, h4, h5, h6, h7, h8⟩
  refine ⟨h1, h2, ?_, ?_, nodup_tkeys_bump h5, nodup_tkeys_bump2 h6,
    nodup_tkeys_bump h7, nodup_tkeys_bump2 h8⟩
  · intro k hk
    rcases (mem_tkeys_bump2 _ _ _ _).mp hk with hk | hk
    · exact h3 k hk
    · exact Or.inr hk
  · intro k hk
    rcases (mem_tkeys_bump2 _ _ _ _).mp hk with hk | hk
    · exact (mem_tkeys_bump _ _ _).mpr (Or.inl (h4 k hk))
    · subst hk; exact (mem_tkeys_bump _ _ _).mpr (Or.inr rfl)

theorem cpv_countCmd_inv (e : String) (st : CPV.Counts × String)
    (cmd : CPV.Cmd) (hname : cmd.name ≠ e)
    (h : CPV.InvCnt e st.1 ∧ st.2 ∈ tkeys st.1.seq1 ∧ st.2 ≠ e) :
    CPV.InvCnt e (CPV.countCmd st cmd).1 ∧
      (CPV.countCmd st cmd).2 ∈ tkeys (CPV.countCmd st cmd).1.seq1 ∧
      (CPV.countCmd st cmd).2 ≠ e := by
  obtain ⟨⟨hS2, hCP, hPV, nd1, nd2, nd3, nd4, nd5, nd6⟩, hprev, hprevne⟩ := h
  have hmono : ∀ k, k ∈ tkeys st.1.seq1 →
      k ∈ tkeys (bump st.1.seq1 cmd.name) :=
    fun k hk => (mem_tkeys_bump _ _ _).mpr (Or.inl hk)
  have hnamemem : cmd.name ∈ tkeys (bump st.1.seq1 cmd.name) :=
    (mem_tkeys_bump _ _ _).mpr (Or.inr rfl)
  obtain ⟨h1, h2, h3, h4, h5, h6, h7, h8⟩ := cpv_paramsFold_facts cmd.name
    cmd.params
    { st.1 with
      seq1 := bump st.1.seq1 cmd.name
      seq2 := bump2 st.1.seq2 st.2 cmd.name } hPV nd3 nd4 nd5 nd6
  simp only [CPV.countCmd]
  refine ⟨⟨?_, ?_, h4, ?_, ?_, h5, h6, h7, h8⟩, ?_, hname⟩
  · intro k hk
    rw [h2] at hk
    rw [h1]
    rcases (mem_tkeys_bump2 _ _ _ _).mp hk with hk | hk
    · exact ⟨hmono k (hS2 k hk).1, (hS2 k hk).2⟩
    · subst hk; exact ⟨hmono _ hprev, hprevne⟩
  · intro k hk
    rw [h1]
    rcases h3 k hk with hk | hk
    · exact hmono k (hCP k hk)
    · subst hk; exact hnamemem
  · rw [h1]; exact nodup_tkeys_bump nd1
  · rw [h2]; exact nodup_tkeys_bump2 nd2
  · rw [h1]; exact hnamemem

theorem cpv_countSession_inv (s e : String) (c : CPV.Counts)
    (sess : List CPV.Cmd) (hse : s ≠ e)
    (hnoe : ∀ cmd ∈ sess, cmd.name ≠ e) (h : CPV.InvCnt e c) :
    CPV.InvCnt e (CPV.countSession c s e sess) := by
  have hbase : CPV.InvCnt e { c with seq1 := bump c.seq1 s } ∧
      s ∈ tkeys (bump c.seq1 s) ∧ s ≠ e := by
    obtain ⟨hS2, hCP, hPV, nd1, nd2, nd3, nd4, nd5, nd6⟩ := h
    refine ⟨⟨?_, ?_, hPV, nodup_tkeys_bump nd1, nd2, nd3, nd4, nd5, nd6⟩,
      (mem_tkeys_bump _ _ _).mpr (Or.inr rfl), hse⟩
    · intro k hk
      exact ⟨(mem_tkeys_bump _ _ _).mpr (Or.inl (hS2 k hk).1), (hS2 k hk).2⟩
    · intro k hk
      exact (mem_tkeys_bump _ _ _).mpr (Or.inl (hCP k hk))
  have hfold := foldl_induct
    (fun st : CPV.Counts × String =>
      CPV.InvCnt e st.1 ∧ st.2 ∈ tkeys st.1.seq1 ∧ st.2 ≠ e)
    CPV.countCmd sess ({ c with seq1 := bump c.seq1 s }, s)
    (fun st cmd hmem hst => cpv_countCmd_inv e st cmd (hnoe cmd hmem) hst)
    hbase
  set st := sess.foldl CPV.countCmd ({ c with seq1 := bump c.seq1 s }, s)
  obtain ⟨⟨hS2, hCP, hPV, nd1, nd2, nd3, nd4, nd5, nd6⟩, hprev, hprevne⟩ :=
    hfold
  unfold CPV.countSession
  refine ⟨?_, ?_, hPV, nodup_tkeys_bump nd1, nodup_tkeys_bump2 nd2,
    nd3, nd4, nd5, nd6⟩
  · intro k hk
    rcases (mem_tkeys_bump2 _ _ _ _).mp hk with hk | hk
    · exact ⟨(mem_tkeys_bump _ _ _).mpr (Or.inl (hS2 k hk).1), (hS2 k hk).2⟩
    · subst hk; exact ⟨(mem_tkeys_bump _ _ _).mpr (Or.inl hprev), hprevne⟩
  · intro k hk
    exact (mem_tkeys_bump _ _ _).mpr (Or.inl (hCP k hk))

theorem cpv_countingPass_inv (sessions : List (List CPV.Cmd)) (s e : String)
    (hse : s ≠ e)
    (hnoe : ∀ sess ∈ sessions, ∀ cmd ∈ sess, cmd.name ≠ e) :
    CPV.InvCnt e (CPV.countingPass sessions s e) := by
  unfold CPV.countingPass
  refine foldl_induct (CPV.InvCnt e) _ sessions _ ?_ ?_
  · intro c sess hmem hc
    exact cpv_countSession_inv s e c sess hse (hnoe sess hmem) hc
  · exact ⟨by simp, by simp, by simp, by simp [tkeys], by simp [tkeys],
      by simp [tkeys], by simp [tkeys], by simp [tkeys], by simp [tkeys]⟩

theorem cpv_counts_valid (sessions : List (List CPV.Cmd)) (s e u : String)
    (hse : s ≠ e) (hsu : s ≠ u) (heu : e ≠ u)
    (hnoe : ∀ sess ∈ sessions, ∀ cmd ∈ sess, cmd.name ≠ e) :
    valid1 (CPV.computeCountsRaw sessions s e u).seq1 u ∧
    valid2 (CPV.computeCountsRaw sessions s e u).seq2 u ∧
    valid1 (CPV.computeCountsRaw sessions s e u).param u ∧
    valid2 (CPV.computeCountsRaw sessions s e u).cmdParam u ∧
    valid1 (CPV.computeCountsRaw sessions s e u).value u ∧
    valid2 (CPV.computeCountsRaw sessions s e u).paramValue u := by
  obtain ⟨hS2, hCP, hPV, nd1, nd2, nd3, nd4, nd5, nd6⟩ :=
    cpv_countingPass_inv sessions s e hse hnoe
  have hue : u ≠ e := Ne.symm heu
  have hus : u ≠ s := Ne.symm hsu
  have huv : u ∈ CPV.cmdsVocab sessions s e u :=
    List.mem_append_right _ (by simp)
  obtain ⟨hK2, snd1, snd2⟩ :=
    cpv_smoothCmds_facts (CPV.countingPass sessions s e)
      (CPV.cmdsVocab sessions s e u) s e nd1 nd2
  set cnt := CPV.countingPass sessions s e with hcnt
  set vocab := CPV.cmdsVocab sessions s e u with hvocab
  set sm := CPV.smoothCmds cnt vocab s e with hsm
  obtain ⟨hsmp, hsmcp, hsmv, hsmpv⟩ := cpv_smoothCmds_others cnt vocab s e
  set params := tkeys sm.param ++ [u] with hparams
  have hup : u ∈ params := List.mem_append_right _ (by simp)
  obtain ⟨hKcp, pnd3, pnd4⟩ :=
    cpv_smoothParams_facts sm vocab params u (by rw [hsmp]; exact nd3)
      (by rw [hsmcp]; exact nd4)
  set smp := CPV.smoothParams sm vocab params u with hsmpar
  obtain ⟨hq1, hq2, hqv, hqpv⟩ := cpv_smoothParams_others sm vocab params u
  set values := tkeys smp.value ++ [u] with hvalues
  have huval : u ∈ values := List.mem_append_right _ (by simp)
  obtain ⟨hKpv, vnd5, vnd6⟩ :=
    cpv_smoothValues_facts smp params values u
      (by rw [hqv, hsmv]; exact nd5) (by rw [hqpv, hsmpv]; exact nd6)
  set raw := CPV.smoothValues smp params values u with hrawdef
  obtain ⟨hw1, hw2, hwp, hwcp⟩ := cpv_smoothValues_others smp params values u
  have hraweq : CPV.computeCountsRaw sessions s e u = raw := by
    simp only [CPV.computeCountsRaw, hrawdef, hsmpar, hsm, hvocab, hcnt,
      hparams, hvalues]
  rw [hraweq]
  -- headline memberships
  have hseq1u : u ∈ tkeys raw.seq1 := by
    rw [hw1, hq1]
    exact mem_tkeys_of_getN_pos _ _
      (cpv_smoothCmds_seq1_pos cnt vocab s e u huv hue hus)
  have hseq2u : u ∈ tkeys raw.seq2 := by
    rw [hw2, hq2]
    exact (mem_tkeys_of_getN2_pos _ _ _
      (cpv_smoothCmds_seq2_pos cnt vocab s e u u huv huv hue hus)).1
  have hparamu : u ∈ tkeys raw.param := by
    rw [hwp]
    exact mem_tkeys_of_getN_pos _ _
      (cpv_smoothParams_param_pos sm vocab params u huv hup)
  have hcpu : u ∈ tkeys raw.cmdParam := by
    rw [hwcp]
    exact (mem_tkeys_of_getN2_pos _ _ _
      (cpv_smoothParams_cmdParam_pos sm vocab params u u huv hup)).1
  have hvalu : u ∈ tkeys raw.value :=
    mem_tkeys_of_getN_pos _ _
      (cpv_smoothValues_value_pos smp params values u hup huval)
  have hpvu : u ∈ tkeys raw.paramValue :=
    (mem_tkeys_of_getN2_pos _ _ _
      (cpv_smoothValues_paramValue_pos smp params values u u hup huval)).1
  refine ⟨⟨ne_nil_of_mem_tkeys hseq1u, hseq1u⟩,
    ⟨ne_nil_of_mem_tkeys hseq2u, hseq2u, ?_⟩,
    ⟨ne_nil_of_mem_tkeys hparamu, hparamu⟩,
    ⟨ne_nil_of_mem_tkeys hcpu, hcpu, ?_⟩,
    ⟨ne_nil_of_mem_tkeys hvalu, hvalu⟩,
    ⟨ne_nil_of_mem_tkeys hpvu, hpvu, ?_⟩⟩
  · -- rows of seq2
    rintro ⟨k, row⟩ hr
    rw [hw2, hq2] at hr
    have hkmem : k ∈ tkeys sm.seq2 := by
      simpa [tkeys] using List.mem_map_of_mem Prod.fst hr
    have hkv : k ∈ vocab ∧ k ≠ e := by
      rcases hK2 k hkmem with hk | hk
      · exact ⟨List.mem_append_left _ (hS2 k hk).1, (hS2 k hk).2⟩
      · exact hk
    have hpos := cpv_smoothCmds_seq2_pos cnt vocab s e k u hkv.1 huv hkv.2 hus
    have humem : u ∈ tkeys (row2 sm.seq2 k) :=
      (mem_tkeys_of_getN2_pos _ _ _ hpos).2
    have hrow : row2 sm.seq2 k = row := row2_eq_of_mem_nodup snd2 hr
    simpa [hrow] using humem
  · -- rows of cmd_param_counts
    rintro ⟨k, row⟩ hr
    rw [hwcp] at hr
    have hkmem : k ∈ tkeys smp.cmdParam := by
      simpa [tkeys] using List.mem_map_of_mem Prod.fst hr
    have hkv : k ∈ vocab := by
      rcases hKcp k hkmem with hk | hk
      · rw [hsmcp] at hk
        exact List.mem_append_left _ (hCP k hk)
      · exact hk
    have hpos := cpv_smoothParams_cmdParam_pos sm vocab params u k hkv hup
    have humem : u ∈ tkeys (row2 smp.cmdParam k) :=
      (mem_tkeys_of_getN2_pos _ _ _ hpos).2
    have hrow : row2 smp.cmdParam k = row := row2_eq_of_mem_nodup pnd4 hr
    simpa [hrow] using humem
  · -- rows of param_value_counts
    rintro ⟨k, row⟩ hr
    have hkmem : k ∈ tkeys raw.paramValue := by
      simpa [tkeys] using List.mem_map_of_mem Prod.fst hr
    have hkp : k ∈ params := by
      rcases hKpv k hkmem with hk | hk
      · rw [hqpv, hsmpv] at hk
        exact List.mem_append_left _ (by rw [hsmp]; exact hPV k hk)
      · exact hk
    have hpos := cpv_smoothValues_paramValue_pos smp params values u k hkp
      huval
    have humem : u ∈ tkeys (row2 raw.paramValue k) :=
      (mem_tkeys_of_getN2_pos _ _ _ hpos).2
    have hrow : row2 raw.paramValue k = row := row2_eq_of_mem_nodup vnd6 hr
    simpa [hrow] using humem

theorem smGet2_pos_of_getN2_pos (t : Tbl2 ℕ) (u c1 c2 : String)
    (h : 0 < getN2 t c1 c2) : 0 < (smGet2 t u c1 c2).getD 0 := by
  obtain ⟨h1, h2⟩ := mem_tkeys_of_getN2_pos t c1 c2 h
  obtain ⟨row, hrow⟩ := lookup_eq_some_of_mem_tkeys t c1 h1
  have hsm1 : smGet1 t u c1 = some row := smGet1_of_lookup t u c1 row hrow
  have hrow2 : row2 t c1 = row := by simp [row2, hrow]
  have hpos : 0 < getN row c2 := by
    have : getN2 t c1 c2 = getN row c2 := by rw [getN2, hrow2]
    rw [← this]; exact h
  simp only [smGet2, hsm1]
  exact smGet1_pos_of_getN_pos row u c2 hpos

theorem cpo_computeCountsRaw_seq2 (sessions : List (List CPO.Cmd))
    (s e u : String) :
    (CPO.computeCountsRaw sessions s e u).seq2 =
      (CPO.smoothCmds (CPO.countingPass sessions s e)
        (CPO.cmdsVocab sessions s e u) s e).seq2 := by
  simp only [CPO.computeCountsRaw]
  exact cpo_smoothParams_seq2 _ _ _ _

theorem cpv_computeCountsRaw_seq2 (sessions : List (List CPV.Cmd))
    (s e u : String) :
    (CPV.computeCountsRaw sessions s e u).seq2 =
      (CPV.smoothCmds (CPV.countingPass sessions s e)
        (CPV.cmdsVocab sessions s e u) s e).seq2 := by
  simp only [CPV.computeCountsRaw]
  rw [(cpv_smoothValues_others _ _ _ _).2.1, (cpv_smoothParams_others _ _ _ _).2.1]

/-!  ## Claim theorems -/

/-- C6: after `compute_counts`, every ordered pair `(c1, c2)` drawn from
the command vocabulary of the counting pass (observed commands, including
the start/end sentinels where they occurred, plus the unknown token), with
`c1` not the end token and `c2` not the start token, has a strictly
positive bigram count in the smoothed `seq2` table and hence in the
returned `seq2` StateMatrix — in both the parameter-only and the
value-aware variants. -/
theorem claim_C6_smoothing_coverage (sessionsO : List (List CPO.Cmd))
    (sessionsV : List (List CPV.Cmd)) (s e u c1 c2 : String)
    (h1 : c1 ≠ e) (h2 : c2 ≠ s) :
    (c1 ∈ CPO.cmdsVocab sessionsO s e u →
      c2 ∈ CPO.cmdsVocab sessionsO s e u →
      0 < getN2 (CPO.computeCountsRaw sessionsO s e u).seq2 c1 c2 ∧
      ∀ T, CPO.computeCounts sessionsO s e u = some T →
        0 < (smGet2 T.seq2 u c1 c2).getD 0) ∧
    (c1 ∈ CPV.cmdsVocab sessionsV s e u →
      c2 ∈ CPV.cmdsVocab sessionsV s e u →
      0 < getN2 (CPV.computeCountsRaw sessionsV s e u).seq2 c1 c2 ∧
      ∀ T, CPV.computeCounts sessionsV s e u = some T →
        0 < (smGet2 T.seq2 u c1 c2).getD 0) := by
  constructor
  · intro hm1 hm2
    have hpos : 0 < getN2 (CPO.computeCountsRaw sessionsO s e u).seq2 c1 c2 := by
      rw [cpo_computeCountsRaw_seq2]
      exact cpo_smoothCmds_seq2_pos _ _ s e c1 c2 hm1 hm2 h1 h2
    refine ⟨hpos, ?_⟩
    intro T hT
    have hTeq : T = CPO.computeCountsRaw sessionsO s e u := by
      by_cases hv : valid1 (CPO.computeCountsRaw sessionsO s e u).seq1 u ∧
          valid2 (CPO.computeCountsRaw sessionsO s e u).seq2 u ∧
          valid1 (CPO.computeCountsRaw sessionsO s e u).param u ∧
          valid2 (CPO.computeCountsRaw sessionsO s e u).cmdParam u
      · simp only [CPO.computeCounts, if_pos hv, Option.some.injEq] at hT
        exact hT.symm
      · simp only [CPO.computeCounts, if_neg hv] at hT
        exact absurd hT (by simp)
    subst hTeq
    exact smGet2_pos_of_getN2_pos _ u c1 c2 hpos
  · intro hm1 hm2
    have hpos : 0 < getN2 (CPV.computeCountsRaw sessionsV s e u).seq2 c1 c2 := by
      rw [cpv_computeCountsRaw_seq2]
      exact cpv_smoothCmds_seq2_pos _ _ s e c1 c2 hm1 hm2 h1 h2
    refine ⟨hpos, ?_⟩
    intro T hT
    have hTeq : T = CPV.computeCountsRaw sessionsV s e u := by
      by_cases hv : valid1 (CPV.computeCountsRaw sessionsV s e u).seq1 u ∧
          valid2 (CPV.computeCountsRaw sessionsV s e u).seq2 u ∧
          valid1 (CPV.computeCountsRaw sessionsV s e u).param u ∧
          valid2 (CPV.computeCountsRaw sessionsV s e u).cmdParam u ∧
          valid1 (CPV.computeCountsRaw sessionsV s e u).value u ∧
          valid2 (CPV.computeCountsRaw sessionsV s e u).paramValue u
      · simp only [CPV.computeCounts, if_pos hv, Option.some.injEq] at hT
        exact hT.symm
      · simp only [CPV.computeCounts, if_neg hv] at hT
        exact absurd hT (by simp)
    subst hTeq
    exact smGet2_pos_of_getN2_pos _ u c1 c2 hpos

/-- Witness for C6 at a concrete training set. -/
theorem claim_C6_smoothing_coverage_witness :
    ("a" ≠ "E" ∧ "##UNK##" ≠ "S") ∧
    (("a" ∈ CPO.cmdsVocab [[CPO.Cmd.mk "a" ["p"]]] "S" "E" "##UNK##" →
      "##UNK##" ∈ CPO.cmdsVocab [[CPO.Cmd.mk "a" ["p"]]] "S" "E" "##UNK##" →
      0 < getN2 (CPO.computeCountsRaw [[CPO.Cmd.mk "a" ["p"]]] "S" "E"
        "##UNK##").seq2 "a" "##UNK##" ∧
      ∀ T, CPO.computeCounts [[CPO.Cmd.mk "a" ["p"]]] "S" "E" "##UNK##" =
          some T →
        0 < (smGet2 T.seq2 "##UNK##" "a" "##UNK##").getD 0) ∧
    ("a" ∈ CPV.cmdsVocab [[CPV.Cmd.mk "a" [("p", "v")]]] "S" "E" "##UNK##" →
      "##UNK##" ∈ CPV.cmdsVocab [[CPV.Cmd.mk "a" [("p", "v")]]] "S" "E"
        "##UNK##" →
      0 < getN2 (CPV.computeCountsRaw [[CPV.Cmd.mk "a" [("p", "v")]]] "S" "E"
        "##UNK##").seq2 "a" "##UNK##" ∧
      ∀ T, CPV.computeCounts [[CPV.Cmd.mk "a" [("p", "v")]]] "S" "E"
          "##UNK##" = some T →
        0 < (smGet2 T.seq2 "##UNK##" "a" "##UNK##").getD 0)) :=
  ⟨⟨by decide, by decide⟩,
    claim_C6_smoothing_coverage [[CPO.Cmd.mk "a" ["p"]]]
      [[CPV.Cmd.mk "a" [("p", "v")]]] "S" "E" "##UNK##" "a" "##UNK##"
      (by decide) (by decide)⟩

/-- C5, counterexample: with an empty session list the counting pass
observes no commands at all, so `cmds = list(seq1_counts.keys()) +
[unk_token]` is `[unk_token]` alone — the start and end sentinels are NOT
part of the vocabulary the claim asserts (`{start, end, unknown}`). -/
theorem claim_C5_empty_vocab_cex :
    CPO.cmdsVocab [] "##START##" "##END##" "##UNK##" = ["##UNK##"] ∧
    "##START##" ∉ CPO.cmdsVocab [] "##START##" "##END##" "##UNK##" ∧
    "##END##" ∉ CPO.cmdsVocab [] "##START##" "##END##" "##UNK##" ∧
    CPV.cmdsVocab [] "##START##" "##END##" "##UNK##" = ["##UNK##"] := by
  decide

/-- C5, amended: with an empty session list the command vocabulary over
which Laplace smoothing runs is exactly the unknown token alone, and the
smoothing and the StateMatrix constructions still complete without error
(for pairwise-distinct sentinel tokens), in both variants. -/
theorem claim_C5_empty_vocab_amended (s e u : String) (hse : s ≠ e)
    (hsu : s ≠ u) (heu : e ≠ u) :
    CPO.cmdsVocab [] s e u = [u] ∧
    (CPO.computeCounts [] s e u).isSome = true ∧
    CPV.cmdsVocab [] s e u = [u] ∧
    (CPV.computeCounts [] s e u).isSome = true := by
  have hO := cpo_counts_valid [] s e u hse hsu heu (by simp)
  have hV := cpv_counts_valid [] s e u hse hsu heu (by simp)
  refine ⟨?_, ?_, ?_, ?_⟩
  · simp [CPO.cmdsVocab, CPO.countingPass, tkeys]
  · simp [CPO.computeCounts, hO.1, hO.2.1, hO.2.2.1, hO.2.2.2]
  · simp [CPV.cmdsVocab, CPV.countingPass, tkeys]
  · simp [CPV.computeCounts, hV.1, hV.2.1, hV.2.2.1, hV.2.2.2.1,
      hV.2.2.2.2.1, hV.2.2.2.2.2]

/-- Witness for the amended C5 at the default sentinel tokens. -/
theorem claim_C5_empty_vocab_amended_witness :
    (("##START##" : String) ≠ "##END##" ∧ ("##START##" : String) ≠ "##UNK##" ∧
      ("##END##" : String) ≠ "##UNK##") ∧
    (CPO.cmdsVocab [] "##START##" "##END##" "##UNK##" = ["##UNK##"] ∧
      (CPO.computeCounts [] "##START##" "##END##" "##UNK##").isSome = true ∧
      CPV.cmdsVocab [] "##START##" "##END##" "##UNK##" = ["##UNK##"] ∧
      (CPV.computeCounts [] "##START##" "##END##" "##UNK##").isSome = true) :=
  ⟨⟨by decide, by decide, by decide⟩,
    claim_C5_empty_vocab_amended "##START##" "##END##" "##UNK##"
      (by decide) (by decide) (by decide)⟩

/-- C10, counterexample: a training session containing a command literally
named like the end token creates a `seq2` row for the end token, which the
command smoothing (skipping `cmd1 == end_token`) never fills with the
unknown token; the StateMatrix construction assertion then fires, so
`compute_counts` fails even though the sentinels are pairwise distinct —
in both variants. -/
theorem claim_C10_end_named_cmd_cex :
    CPO.computeCounts [[CPO.Cmd.mk "E" []]] "S" "E" "U" = none ∧
    ¬ valid2 (CPO.computeCountsRaw [[CPO.Cmd.mk "E" []]] "S" "E" "U").seq2
      "U" ∧
    CPV.computeCounts [[CPV.Cmd.mk "E" []]] "S" "E" "U" = none ∧
    ¬ valid2 (CPV.computeCountsRaw [[CPV.Cmd.mk "E" []]] "S" "E" "U").seq2
      "U" := by
  decide

/-- C10, amended: for pairwise-distinct sentinel tokens and training
sessions in which no command bears the end token's name, every table built
by `compute_counts` satisfies the StateMatrix construction invariant —
non-empty, unknown token at the top level, and (for two-level tables)
unknown token inside every second-level sub-mapping — so the constructor
assertions never fire and `compute_counts` returns the smoothed tables, in
both variants. -/
theorem claim_C10_tables_valid_amended (sessionsO : List (List CPO.Cmd))
    (sessionsV : List (List CPV.Cmd)) (s e u : String) (hse : s ≠ e)
    (hsu : s ≠ u) (heu : e ≠ u)
    (hnoeO : ∀ sess ∈ sessionsO, ∀ cmd ∈ sess, cmd.name ≠ e)
    (hnoeV : ∀ sess ∈ sessionsV, ∀ cmd ∈ sess, cmd.name ≠ e) :
    (valid1 (CPO.computeCountsRaw sessionsO s e u).seq1 u ∧
      valid2 (CPO.computeCountsRaw sessionsO s e u).seq2 u ∧
      valid1 (CPO.computeCountsRaw sessionsO s e u).param u ∧
      valid2 (CPO.computeCountsRaw sessionsO s e u).cmdParam u ∧
      CPO.computeCounts sessionsO s e u =
        some (CPO.computeCountsRaw sessionsO s e u)) ∧
    (valid1 (CPV.computeCountsRaw sessionsV s e u).seq1 u ∧
      valid2 (CPV.computeCountsRaw sessionsV s e u).seq2 u ∧
      valid1 (CPV.computeCountsRaw sessionsV s e u).param u ∧
      valid2 (CPV.computeCountsRaw sessionsV s e u).cmdParam u ∧
      valid1 (CPV.computeCountsRaw sessionsV s e u).value u ∧
      valid2 (CPV.computeCountsRaw sessionsV s e u).paramValue u ∧
      CPV.computeCounts sessionsV s e u =
        some (CPV.computeCountsRaw sessionsV s e u)) := by
  obtain ⟨hO1, hO2, hO3, hO4⟩ :=
    cpo_counts_valid sessionsO s e u hse hsu heu hnoeO
  obtain ⟨hV1, hV2, hV3, hV4, hV5, hV6⟩ :=
    cpv_counts_valid sessionsV s e u hse hsu heu hnoeV
  refine ⟨⟨hO1, hO2, hO3, hO4, ?_⟩, ⟨hV1, hV2, hV3, hV4, hV5, hV6, ?_⟩⟩
  · simp [CPO.computeCounts, hO1, hO2, hO3, hO4]
  · simp [CPV.computeCounts, hV1, hV2, hV3, hV4, hV5, hV6]

/-- Witness for the amended C10 at a concrete training set. -/
theorem claim_C10_tables_valid_amended_witness :
    (("S" : String) ≠ "E" ∧ ("S" : String) ≠ "U" ∧ ("E" : String) ≠ "U" ∧
      (∀ sess ∈ [[CPO.Cmd.mk "a" ["p"]]], ∀ cmd ∈ sess,
        CPO.Cmd.name cmd ≠ "E") ∧
      (∀ sess ∈ [[CPV.Cmd.mk "a" [("p", "v")]]], ∀ cmd ∈ sess,
        CPV.Cmd.name cmd ≠ "E")) ∧
    ((valid1 (CPO.computeCountsRaw [[CPO.Cmd.mk "a" ["p"]]] "S" "E" "U").seq1
        "U" ∧
      valid2 (CPO.computeCountsRaw [[CPO.Cmd.mk "a" ["p"]]] "S" "E" "U").seq2
        "U" ∧
      valid1 (CPO.computeCountsRaw [[CPO.Cmd.mk "a" ["p"]]] "S" "E" "U").param
        "U" ∧
      valid2 (CPO.computeCountsRaw [[CPO.Cmd.mk "a" ["p"]]] "S" "E"
        "U").cmdParam "U" ∧
      CPO.computeCounts [[CPO.Cmd.mk "a" ["p"]]] "S" "E" "U" =
        some (CPO.computeCountsRaw [[CPO.Cmd.mk "a" ["p"]]] "S" "E" "U")) ∧
    (valid1 (CPV.computeCountsRaw [[CPV.Cmd.mk "a" [("p", "v")]]] "S" "E"
        "U").seq1 "U" ∧
      valid2 (CPV.computeCountsRaw [[CPV.Cmd.mk "a" [("p", "v")]]] "S" "E"
        "U").seq2 "U" ∧
      valid1 (CPV.computeCountsRaw [[CPV.Cmd.mk "a" [("p", "v")]]] "S" "E"
        "U").param "U" ∧
      valid2 (CPV.computeCountsRaw [[CPV.Cmd.mk "a" [("p", "v")]]] "S" "E"
        "U").cmdParam "U" ∧
      valid1 (CPV.computeCountsRaw [[CPV.Cmd.mk "a" [("p", "v")]]] "S" "E"
        "U").value "U" ∧
      valid2 (CPV.computeCountsRaw [[CPV.Cmd.mk "a" [("p", "v")]]] "S" "E"
        "U").paramValue "U" ∧
      CPV.computeCounts [[CPV.Cmd.mk "a" [("p", "v")]]] "S" "E" "U" =
        some (CPV.computeCountsRaw [[CPV.Cmd.mk "a" [("p", "v")]]] "S" "E"
          "U"))) :=
  ⟨⟨by decide, by decide, by decide, by decide, by decide⟩,
    claim_C10_tables_valid_amended [[CPO.Cmd.mk "a" ["p"]]]
      [[CPV.Cmd.mk "a" [("p", "v")]]] "S" "E" "U" (by decide) (by decide)
      (by decide) (by decide) (by decide)⟩

theorem smGet1_self {α : Type} (t : Tbl1 α) (u : String) :
    smGet1 t u u = List.lookup u t := by
  cases h : List.lookup u t with
  | none => simp [smGet1, h]
  | some v => simp [smGet1, h]

theorem lookup_mem {α : Type} (t : List (String × α)) (k : String) (v : α)
    (h : List.lookup k t = some v) : (k, v) ∈ t := by
  induction t with
  | nil => simp [List.lookup] at h
  | cons hd tl ih =>
    obtain ⟨a, w⟩ := hd
    by_cases hak : k = a
    · subst hak
      have : w = v := by simpa [List.lookup] using h
      subst this
      exact List.mem_cons_self _ _
    · have hf : (k == a) = false := beq_eq_false_iff_ne.mpr hak
      exact List.mem_cons_of_mem _ (ih (by simpa [List.lookup, hf] using h))

/-- C8: the StateMatrix fallback contract (modelled from the spec, the
source `data_structures.py` not being among the files at hand): lookups of
keys absent at construction fall back to the unknown-token entry, level by
level, and lookups of present keys return the stored values unchanged. -/
theorem claim_C8_fallback {α : Type} (t1 : Tbl1 α) (t2 : Tbl2 α)
    (u k m1 m2 p1 p2 q q1 q2 : String) (rowp rowq : Tbl1 α) (v w : α)
    (h1 : valid1 t1 u) (h2 : valid2 t2 u)
    (hk : k ∉ tkeys t1)
    (hm1 : m1 ∉ tkeys t2) (hm2 : ∀ r ∈ t2, m2 ∉ tkeys r.2)
    (hp1 : List.lookup p1 t2 = some rowp) (hp2 : p2 ∉ tkeys rowp)
    (hq : List.lookup q t1 = some v)
    (hq1 : List.lookup q1 t2 = some rowq)
    (hq2 : List.lookup q2 rowq = some w) :
    smGet1 t1 u k = smGet1 t1 u u ∧
    smGet2 t2 u m1 m2 = smGet2 t2 u u u ∧
    smGet2 t2 u p1 p2 = smGet2 t2 u p1 u ∧
    smGet1 t1 u q = some v ∧
    smGet2 t2 u q1 q2 = some w := by
  obtain ⟨-, hu2, hrows⟩ := h2
  obtain ⟨rowu, hrowu⟩ := lookup_eq_some_of_mem_tkeys t2 u hu2
  refine ⟨?_, ?_, ?_, smGet1_of_lookup t1 u q v hq, ?_⟩
  · rw [smGet1_of_not_mem t1 u k hk, smGet1_self]
  · have hL : smGet1 t2 u m1 = some rowu := by
      rw [smGet1_of_not_mem t2 u m1 hm1, hrowu]
    have hR : smGet1 t2 u u = some rowu := by
      rw [smGet1_self, hrowu]
    have hm2u : m2 ∉ tkeys rowu := hm2 (u, rowu) (lookup_mem t2 u rowu hrowu)
    simp only [smGet2, hL, hR]
    rw [smGet1_of_not_mem rowu u m2 hm2u, smGet1_self]
  · have hL : smGet1 t2 u p1 = some rowp := smGet1_of_lookup t2 u p1 rowp hp1
    simp only [smGet2, hL]
    rw [smGet1_of_not_mem rowp u p2 hp2, smGet1_self]
  · have hL : smGet1 t2 u q1 = some rowq := smGet1_of_lookup t2 u q1 rowq hq1
    simp only [smGet2, hL]
    exact smGet1_of_lookup rowq u q2 w hq2

/-- Witness for C8 at the tables of the repository's StateMatrix test. -/
theorem claim_C8_fallback_witness :
    (valid1 [("haha", 2), ("##UNK##", 5)] "##UNK##" ∧
      valid2 [("haha", [("hehe", 1), ("##UNK##", 4)]),
        ("##UNK##", [("##UNK##", 6), ("lol", 78)])] "##UNK##" ∧
      "kjfkjhf" ∉ tkeys [("haha", 2), ("##UNK##", 5)] ∧
      "kidhf" ∉ tkeys [("haha", [("hehe", 1), ("##UNK##", 4)]),
        ("##UNK##", [("##UNK##", 6), ("lol", 78)])]) ∧
    (smGet1 [("haha", 2), ("##UNK##", 5)] "##UNK##" "kjfkjhf" =
      smGet1 [("haha", 2), ("##UNK##", 5)] "##UNK##" "##UNK##" ∧
    smGet2 [("haha", [("hehe", 1), ("##UNK##", 4)]),
        ("##UNK##", [("##UNK##", 6), ("lol", 78)])] "##UNK##" "kidhf"
        "kfji" =
      smGet2 [("haha", [("hehe", 1), ("##UNK##", 4)]),
        ("##UNK##", [("##UNK##", 6), ("lol", 78)])] "##UNK##" "##UNK##"
        "##UNK##" ∧
    smGet2 [("haha", [("hehe", 1), ("##UNK##", 4)]),
        ("##UNK##", [("##UNK##", 6), ("lol", 78)])] "##UNK##" "haha"
        "kjdff" =
      smGet2 [("haha", [("hehe", 1), ("##UNK##", 4)]),
        ("##UNK##", [("##UNK##", 6), ("lol", 78)])] "##UNK##" "haha"
        "##UNK##" ∧
    smGet1 [("haha", 2), ("##UNK##", 5)] "##UNK##" "haha" = some 2 ∧
    smGet2 [("haha", [("hehe", 1), ("##UNK##", 4)]),
        ("##UNK##", [("##UNK##", 6), ("lol", 78)])] "##UNK##" "haha"
        "hehe" = some 1) :=
  ⟨⟨by decide, by decide, by decide, by decide⟩,
    claim_C8_fallback [("haha", 2), ("##UNK##", 5)]
      [("haha", [("hehe", 1), ("##UNK##", 4)]),
        ("##UNK##", [("##UNK##", 6), ("lol", 78)])]
      "##UNK##" "kjfkjhf" "kidhf" "kfji" "haha" "kjdff" "haha" "haha" "hehe"
      [("hehe", 1), ("##UNK##", 4)] [("hehe", 1), ("##UNK##", 4)] 2 1
      (by decide) (by decide) (by decide) (by decide) (by decide)
      (by decide) (by decide) (by decide) (by decide) (by decide)⟩

/-- C9, counterexample: `param_stats` computes
`100 * len(vals) / param_counts[param]` for EVERY first-level key of
`param_value_counts` before filtering, so a parameter with a zero
occurrence count makes `get_params_to_model_values` raise
ZeroDivisionError instead of returning the (here empty) claimed set. -/
theorem claim_C9_zero_count_cex :
    CPV.getParamsToModelValues (fun _ => 0) [("p", [("v", 1)])] = none ∧
    CPV.getParamsToModelValues (fun _ => 0) [("p", [("v", 1)])] ≠
      some ∅ := by
  decide

/-- C9, amended: provided every first-level key of `param_value_counts`
has a non-zero `param_counts` entry, `get_params_to_model_values` returns
exactly the set of parameters `p` with `d ≤ 20`, `n ≥ 20` and
`100·d/n ≤ 10`, where `d` is the number of distinct values stored under
`p` and `n = param_counts[p]`. -/
theorem claim_C9_modellable_params_amended (pc : String → ℚ) (pv : Tbl2 ℚ)
    (h : ∀ r ∈ pv, pc r.1 ≠ 0) :
    ∃ S, CPV.getParamsToModelValues pc pv = some S ∧
      ∀ p, p ∈ S ↔ ∃ vals, (p, vals) ∈ pv ∧ vals.length ≤ 20 ∧
        20 ≤ pc p ∧ 100 * (vals.length : ℚ) / pc p ≤ 10 := by
  have hany : (pv.any fun r => decide (pc r.1 = 0)) = false := by
    rw [List.any_eq_false]
    intro r hr
    simpa using h r hr
  refine ⟨((pv.filter fun r => decide (r.2.length ≤ 20 ∧ 20 ≤ pc r.1 ∧
      100 * (r.2.length : ℚ) / pc r.1 ≤ 10)).map Prod.fst).toFinset, ?_, ?_⟩
  · simp only [CPV.getParamsToModelValues, hany]
    rfl
  · intro p
    simp only [List.mem_toFinset, List.mem_map, List.mem_filter]
    constructor
    · rintro ⟨r, ⟨hrmem, hcond⟩, hfst⟩
      refine ⟨r.2, ?_, ?_⟩
      · rw [← hfst]; exact hrmem
      · simpa [← hfst] using of_decide_eq_true hcond
    · rintro ⟨vals, hmem, hcond⟩
      exact ⟨(p, vals), ⟨hmem, by simpa using hcond⟩, rfl⟩

/-- Witness for the amended C9. -/
theorem claim_C9_modellable_params_amended_witness :
    (∀ r ∈ [("p", [("v", (1 : ℚ))])], (fun _ : String => (25 : ℚ)) r.1 ≠ 0) ∧
    (∃ S, CPV.getParamsToModelValues (fun _ => 25) [("p", [("v", 1)])] =
        some S ∧
      ∀ q, q ∈ S ↔ ∃ vals, (q, vals) ∈ [("p", [("v", (1 : ℚ))])] ∧
        vals.length ≤ 20 ∧ 20 ≤ (fun _ : String => (25 : ℚ)) q ∧
        100 * (vals.length : ℚ) / (fun _ : String => (25 : ℚ)) q ≤ 10) :=
  ⟨by decide,
    claim_C9_modellable_params_amended (fun _ => 25) [("p", [("v", 1)])]
      (by decide)⟩

theorem lookup_of_mem_nodup {α : Type} {t : List (String × α)} {k : String}
    {v : α} (hnd : (tkeys t).Nodup) (hmem : (k, v) ∈ t) :
    List.lookup k t = some v := by
  induction t with
  | nil => simp at hmem
  | cons hd tl ih =>
    obtain ⟨a, w⟩ := hd
    have hnd' : (tkeys tl).Nodup := (List.nodup_cons.mp (by simpa using hnd)).2
    have hna : a ∉ tkeys tl := (List.nodup_cons.mp (by simpa using hnd)).1
    rcases List.mem_cons.mp hmem with heq | hmem'
    · obtain ⟨hk, hv⟩ := Prod.mk.inj heq
      subst hk; subst hv
      simp [List.lookup]
    · have hka : k ≠ a := by
        intro hka; subst hka
        exact hna (by simpa [tkeys] using List.mem_map_of_mem Prod.fst hmem')
      have hf : (k == a) = false := beq_eq_false_iff_ne.mpr hka
      simpa [List.lookup, hf] using ih hnd' hmem'

theorem sum_map_div (l : List (String × ℚ)) (S : ℚ) :
    (l.map (fun kv => kv.2 / S)).sum = (l.map Prod.snd).sum / S := by
  induction l with
  | nil => simp
  | cons hd tl ih => simp [ih, add_div]

theorem sum_normalizeRow (row : Tbl1 ℚ) (hnd : (tkeys row).Nodup)
    (hS : Probs.sumVals row ≠ 0) :
    Probs.sumVals (Probs.normalizeRow row) = 1 := by
  have hmap : Probs.normalizeRow row =
      row.map (fun kv => (kv.1, kv.2 / Probs.sumVals row)) := by
    unfold Probs.normalizeRow
    refine List.map_congr_left ?_
    intro kv hkv
    have : List.lookup kv.1 row = some kv.2 :=
      lookup_of_mem_nodup hnd (by simpa using hkv)
    simp [lookupD, this]
  have h2 : Probs.sumVals (row.map (fun kv =>
      (kv.1, kv.2 / Probs.sumVals row))) =
      (row.map (fun kv => kv.2 / Probs.sumVals row)).sum := by
    unfold Probs.sumVals
    rw [List.map_map]
    rfl
  rw [hmap, h2, sum_map_div]
  rw [show (row.map Prod.snd).sum = Probs.sumVals row from rfl]
  exact div_self hS

theorem condProbsRaw_row_sums (t : Tbl2 ℚ)
    (hnd : ∀ r ∈ t, (tkeys r.2).Nodup)
    (hpos : ∀ r ∈ t, ¬ r.2.isEmpty → 0 < Probs.sumVals r.2) :
    ∀ r ∈ Probs.condProbsRaw t, Probs.sumVals r.2 = 1 := by
  intro r hr
  unfold Probs.condProbsRaw at hr
  obtain ⟨r0, hr0, hr0eq⟩ := List.mem_map.mp hr
  obtain ⟨hr0mem, hr0ne⟩ := List.mem_filter.mp hr0
  have hne : ¬ r0.2.isEmpty := by simpa using hr0ne
  have := sum_normalizeRow r0.2 (hnd r0 hr0mem)
    (ne_of_gt (hpos r0 hr0mem hne))
  rw [← hr0eq]
  simpa using this

/-- C7: for count tables whose (non-empty) rows carry positive total mass,
every conditional probability table produced by the derivation stage —
command transitions (`compute_cmds_probs`), params given command
(`compute_params_probs`), values given param (`compute_values_probs`) — is
row-stochastic: each first-level key's row of probabilities sums exactly
to 1 (the floating-point tolerance of the spec is the exact identity in
the rational model).  The row key lists are duplicate-free because the
inputs model Python dicts. -/
theorem claim_C7_row_stochastic (t : Tbl2 ℚ)
    (hnd : ∀ r ∈ t, (tkeys r.2).Nodup)
    (hpos : ∀ r ∈ t, ¬ r.2.isEmpty → 0 < Probs.sumVals r.2) :
    (∀ r ∈ Probs.condProbsRaw t, Probs.sumVals r.2 = 1) ∧
    (∀ s1 u out, Probs.computeCmdsProbs s1 t u = some out →
      ∀ r ∈ out.2, Probs.sumVals r.2 = 1) ∧
    (∀ p1 u out, Probs.computeParamsProbs p1 t u = some out →
      ∀ r ∈ out.2, Probs.sumVals r.2 = 1) ∧
    (∀ v1 u out, Probs.computeValuesProbs v1 t u = some out →
      ∀ r ∈ out.2, Probs.sumVals r.2 = 1) := by
  have hcore := condProbsRaw_row_sums t hnd hpos
  refine ⟨hcore, ?_, ?_, ?_⟩
  · intro s1 u out hout
    have : out.2 = Probs.condProbsRaw t := by
      unfold Probs.computeCmdsProbs at hout
      split at hout
      · exact absurd hout (by simp)
      · split at hout
        · exact absurd hout (by simp)
        · simp only [] at hout
          split at hout
          · obtain ⟨rfl⟩ := Option.some.inj hout
            rfl
          · exact absurd hout (by simp)
    rw [this]; exact hcore
  · intro p1 u out hout
    have : out.2 = Probs.condProbsRaw t := by
      unfold Probs.computeParamsProbs at hout
      split at hout
      · exact absurd hout (by simp)
      · split at hout
        · exact absurd hout (by simp)
        · simp only [] at hout
          split at hout
          · obtain ⟨rfl⟩ := Option.some.inj hout
            rfl
          · exact absurd hout (by simp)
    rw [this]; exact hcore
  · intro v1 u out hout
    have : out.2 = Probs.condProbsRaw t := by
      unfold Probs.computeValuesProbs at hout
      split at hout
      · exact absurd hout (by simp)
      · split at hout
        · exact absurd hout (by simp)
        · simp only [] at hout
          split at hout
          · obtain ⟨rfl⟩ := Option.some.inj hout
            rfl
          · exact absurd hout (by simp)
    rw [this]; exact hcore

/-- Witness for C7 at a concrete bigram count table. -/
theorem claim_C7_row_stochastic_witness :
    ((∀ r ∈ [("a", [("b", (1 : ℚ)), ("u", 1)])], (tkeys r.2).Nodup) ∧
      (∀ r ∈ [("a", [("b", (1 : ℚ)), ("u", 1)])], ¬ r.2.isEmpty →
        0 < Probs.sumVals r.2)) ∧
    ((∀ r ∈ Probs.condProbsRaw [("a", [("b", (1 : ℚ)), ("u", 1)])],
        Probs.sumVals r.2 = 1) ∧
      (∀ s1 u out, Probs.computeCmdsProbs s1
          [("a", [("b", (1 : ℚ)), ("u", 1)])] u = some out →
        ∀ r ∈ out.2, Probs.sumVals r.2 = 1) ∧
      (∀ p1 u out, Probs.computeParamsProbs p1
          [("a", [("b", (1 : ℚ)), ("u", 1)])] u = some out →
        ∀ r ∈ out.2, Probs.sumVals r.2 = 1) ∧
      (∀ v1 u out, Probs.computeValuesProbs v1
          [("a", [("b", (1 : ℚ)), ("u", 1)])] u = some out →
        ∀ r ∈ out.2, Probs.sumVals r.2 = 1)) :=
  ⟨⟨by decide, by simp [Probs.sumVals]⟩,
    claim_C7_row_stochastic [("a", [("b", (1 : ℚ)), ("u", 1)])]
      (by decide) (by simp [Probs.sumVals])⟩

/-- C4 (code_bug evaluation): with an empty reference parameter row
(`k = 0`), a non-empty parameter set and `use_geo_mean=True`, the
parameter-only `compute_prob_setofparams_given_cmd` evaluates `1 / k` with
`k = 0` and raises ZeroDivisionError (modelled `none`) — it has no `k > 0`
guard — while the value-aware variant guards the normalisation and returns
the un-normalized Bernoulli product (here the empty product 1), as the
claim demands of both. -/
theorem claim_C4_geo_zero_division :
    CPO.computeProbSetofparamsGivenCmd "c" ["x"] (fun _ => []) true
      (fun _ q => q) = none ∧
    CPV.computeProbSetofparamsGivenCmd "c" [("x", "v")] (fun _ => [])
      (fun _ _ => 1) [] true (fun _ q => q) = 1 := by
  constructor
  · decide
  · simp [CPV.computeProbSetofparamsGivenCmd]

/-- C1 (code_bug evaluation): on the two-command window `[a, b]` with
start/end tokens disabled and empty parameter sets, the subsequent-command
loop (`prev, cur = window[i - 1], window[i]` over `enumerate(window[1:])`)
evaluates, at `i = 0`, `prev = window[-1]` — the LAST window element — and
`cur = window[0]`.  Both variants therefore return
`prior(a) · paramlik(a) · trans(b → a) · paramlik(a)` instead of the
claimed `prior(a) · paramlik(a) · trans(a → b) · paramlik(b)`: the
transition scored is the wrap-around `b → a` and the last command `b` is
never scored at all. -/
theorem claim_C1_window_wraparound :
    CPO.computeLikelihoodWindow [CPO.Cmd.mk "a" [], CPO.Cmd.mk "b" []]
      (fun s => if s = "a" then 1/5 else 1/7)
      (fun x y => if x = "a" ∧ y = "b" then 1/2
        else if x = "b" ∧ y = "a" then 1/3 else 1/11)
      (fun _ => []) false false "S" "E" (fun _ q => q) =
      some (some ((1 : ℚ)/15)) ∧
    CPO.computeLikelihoodWindow [CPO.Cmd.mk "a" [], CPO.Cmd.mk "b" []]
      (fun s => if s = "a" then 1/5 else 1/7)
      (fun x y => if x = "a" ∧ y = "b" then 1/2
        else if x = "b" ∧ y = "a" then 1/3 else 1/11)
      (fun _ => []) false false "S" "E" (fun _ q => q) ≠
      some (some ((1 : ℚ)/5 * ((1 : ℚ)/2))) ∧
    CPV.computeLikelihoodWindow [CPV.Cmd.mk "a" [], CPV.Cmd.mk "b" []]
      (fun s => if s = "a" then 1/5 else 1/7)
      (fun x y => if x = "a" ∧ y = "b" then 1/2
        else if x = "b" ∧ y = "a" then 1/3 else 1/11)
      (fun _ => []) (fun _ _ => 1) [] false false "S" "E" (fun _ q => q) =
      some ((1 : ℚ)/15) := by
  refine ⟨?_, ?_, ?_⟩ <;>
    norm_num [CPO.computeLikelihoodWindow, CPO.windowStep, bindStep,
      CPO.computeProbSetofparamsGivenCmd, CPV.computeLikelihoodWindow,
      CPV.computeProbSetofparamsGivenCmd, List.range_succ] <;>
    decide

/-- C3, counterexample: with start/end tokens enabled, a session of length
`w - 1` is NOT returned as `([], NaN)`: the synthetic end-token command
appended to the session makes one sliding window, which is scored, and
`rarest_window_session` returns the (w-1)-command session slice with that
likelihood — here `([Cmd "a"], 1)` for window length 2 — in both
variants. -/
theorem claim_C3_short_session_cex :
    CPO.rarestWindowSession [CPO.Cmd.mk "a" []] (fun _ => 1) (fun _ _ => 1)
      (fun _ => []) 2 true "S" "E" false (fun _ q => q) =
      some ([CPO.Cmd.mk "a" []], some 1) ∧
    CPO.rarestWindowSession [CPO.Cmd.mk "a" []] (fun _ => 1) (fun _ _ => 1)
      (fun _ => []) 2 true "S" "E" false (fun _ q => q) ≠
      some ([], none) ∧
    CPV.rarestWindowSession [CPV.Cmd.mk "a" []] (fun _ => 1) (fun _ _ => 1)
      (fun _ => []) (fun _ _ => 1) [] 2 true "S" "E" false (fun _ q => q) ≠
      some ([], none) := by
  have hO : CPO.rarestWindowSession [CPO.Cmd.mk "a" []] (fun _ => 1)
      (fun _ _ => 1) (fun _ => []) 2 true "S" "E" false (fun _ q => q) =
      some ([CPO.Cmd.mk "a" []], some 1) := by
    norm_num [CPO.rarestWindowSession, CPO.computeLikelihoodWindowsInSession,
      CPO.sessionStep, CPO.computeLikelihoodWindow, CPO.windowStep, bindStep,
      accStep, CPO.computeProbSetofparamsGivenCmd, adjustWindowGeo,
      pyMinFold, pyEq, idxOfEq, List.range_succ]
  have hV : CPV.rarestWindowSession [CPV.Cmd.mk "a" []] (fun _ => 1)
      (fun _ _ => 1) (fun _ => []) (fun _ _ => 1) [] 2 true "S" "E" false
      (fun _ q => q) = some ([CPV.Cmd.mk "a" []], some 1) := by
    norm_num [CPV.rarestWindowSession, CPV.computeLikelihoodWindowsInSession,
      CPV.sessionStep, CPV.computeLikelihoodWindow, accStep,
      CPV.computeProbSetofparamsGivenCmd, adjustWindowGeo, pyMinFold, pyEq,
      idxOfEq, List.range_succ]
  refine ⟨hO, ?_, ?_⟩
  · rw [hO]; simp
  · rw [hV]; simp

/-- C3, amended: `rarest_window_session` returns an empty window and a NaN
likelihood exactly at the no-window boundary: when start/end tokens are
off and the session is shorter than the window length, or when they are on
and the session extended by the synthetic end-token command is still
shorter than the window length (`len(session) + 1 < w`) — in both
variants.  (With tokens on and `len(session) = w - 1` one scored window
exists instead; see the counterexample.) -/
theorem claim_C3_short_session_amended (sessionO : List CPO.Cmd)
    (sessionV : List CPV.Cmd) (priorO : String → ℚ)
    (transO : String → String → ℚ) (pccO : String → Tbl1 ℚ)
    (priorV : String → ℚ) (transV : String → String → ℚ)
    (pccV : String → Tbl1 ℚ) (vcpV : String → String → ℚ)
    (mp : List String) (w : ℕ) (useSE : Bool) (s e : String) (geo : Bool)
    (rt : ℕ → ℚ → ℚ) :
    ((if useSE then sessionO.length + 1 else sessionO.length) < w →
      CPO.rarestWindowSession sessionO priorO transO pccO w useSE s e geo
        rt = some ([], none)) ∧
    ((if useSE then sessionV.length + 1 else sessionV.length) < w →
      CPV.rarestWindowSession sessionV priorV transV pccV vcpV mp w useSE s
        e geo rt = some ([], none)) := by
  constructor
  · intro h
    have hlen : (sessionO ++
        (if useSE then [CPO.Cmd.mk e []] else [])).length + 1 - w = 0 := by
      cases useSE <;> simp at h ⊢ <;> omega
    simp only [CPO.rarestWindowSession, CPO.computeLikelihoodWindowsInSession,
      hlen, List.range_zero, List.foldl_nil]
  · intro h
    have hlen : (sessionV ++
        (if useSE then [CPV.Cmd.mk e []] else [])).length + 1 - w = 0 := by
      cases useSE <;> simp at h ⊢ <;> omega
    simp only [CPV.rarestWindowSession, CPV.computeLikelihoodWindowsInSession,
      hlen, List.range_zero, List.foldl_nil]

theorem cpo_paramLik_some (cmd : String) (ps : List String)
    (pcc : String → Tbl1 ℚ) (geo : Bool) (rt : ℕ → ℚ → ℚ)
    (h : pcc cmd ≠ []) :
    ∃ q, CPO.computeProbSetofparamsGivenCmd cmd ps pcc geo rt = some q := by
  unfold CPO.computeProbSetofparamsGivenCmd
  split
  · exact ⟨1, rfl⟩
  · simp only []
    split
    · split
      · next hlen =>
        exact absurd (List.length_eq_zero.mp hlen) h
      · exact ⟨_, rfl⟩
    · exact ⟨_, rfl⟩

/-- Folding an exception-propagating step whose body always succeeds keeps
the accumulator defined. -/
theorem foldl_matchstep_some {γ : Type} (g : γ → ℕ → Option γ)
    (l : List ℕ) (st0 : γ) (hg : ∀ st i, i ∈ l → ∃ st2, g st i = some st2) :
    ∃ st, l.foldl (bindStep g) (some st0) = some st := by
  induction l generalizing st0 with
  | nil => exact ⟨st0, rfl⟩
  | cons hd tl ih =>
    obtain ⟨st1, hst1⟩ := hg st0 hd (List.mem_cons_self _ _)
    simpa [bindStep, hst1] using
      ih st1 (fun st i hi => hg st i (List.mem_cons_of_mem _ hi))

theorem cpo_window_some (window : List CPO.Cmd) (prior : String → ℚ)
    (trans : String → String → ℚ) (pcc : String → Tbl1 ℚ)
    (us ue : Bool) (s e : String) (rt : ℕ → ℚ → ℚ)
    (hne : window ≠ []) (hrows : ∀ c, pcc c ≠ []) :
    ∃ q, CPO.computeLikelihoodWindow window prior trans pcc us ue s e rt =
      some (some q) := by
  unfold CPO.computeLikelihoodWindow
  rw [if_neg (by simpa using hne)]
  simp only []
  obtain ⟨p0, hp0⟩ := cpo_paramLik_some (window.getD 0 default).name
    (window.getD 0 default).params pcc true rt
    (hrows (window.getD 0 default).name)
  rw [hp0]
  obtain ⟨st, hst⟩ := foldl_matchstep_some
    (CPO.windowStep window trans pcc rt) (List.range (window.length - 1))
    (((if us then trans s (window.getD 0 default).name * p0
      else prior (window.getD 0 default).name * p0)), (window.getD 0 default).name)
    (fun st i _ => by
      unfold CPO.windowStep
      simp only []
      obtain ⟨p, hp⟩ := cpo_paramLik_some (window.getD i default).name
        (window.getD i default).params pcc true rt
        (hrows (window.getD i default).name)
      rw [hp]
      exact ⟨_, rfl⟩)
  simp only []
  rw [hst]
  exact ⟨_, rfl⟩

theorem cpo_window_eq_likAt (session : List CPO.Cmd) (prior : String → ℚ)
    (trans : String → String → ℚ) (pcc : String → Tbl1 ℚ) (w : ℕ)
    (useSE : Bool) (s e : String) (rt : ℕ → ℚ → ℚ) (i : ℕ)
    (hw : 1 ≤ w)
    (hi : i < (session ++ (if useSE then [CPO.Cmd.mk e []] else [])).length
      + 1 - w)
    (hrows : ∀ c, pcc c ≠ []) :
    CPO.computeLikelihoodWindow
      (((session ++ (if useSE then [CPO.Cmd.mk e []] else [])).drop i).take w)
      prior trans pcc (useSE && i == 0) false s e rt =
      some (some (CPO.windowLikAt session prior trans pcc w useSE s e rt i)) := by
  have hne : (((session ++ (if useSE then [CPO.Cmd.mk e []] else [])).drop
      i).take w) ≠ [] := by
    have hlen : i + w ≤
        (session ++ (if useSE then [CPO.Cmd.mk e []] else [])).length := by
      omega
    intro hcon
    have h0 := congrArg List.length hcon
    rw [List.length_take, List.length_drop, List.length_nil] at h0
    rcases Nat.min_eq_zero_iff.mp h0 with h | h <;> omega
  obtain ⟨q, hq⟩ := cpo_window_some _ prior trans pcc (useSE && i == 0) false
    s e rt hne hrows
  rw [hq]
  unfold CPO.windowLikAt
  simp only []
  rw [hq]
  rfl

theorem cpo_sessionStep_eq (session : List CPO.Cmd) (prior : String → ℚ)
    (trans : String → String → ℚ) (pcc : String → Tbl1 ℚ) (w : ℕ)
    (useSE : Bool) (s e : String) (geo : Bool) (rt : ℕ → ℚ → ℚ) (i : ℕ)
    (hw : 1 ≤ w)
    (hi : i < (session ++ (if useSE then [CPO.Cmd.mk e []] else [])).length
      + 1 - w)
    (hrows : ∀ c, pcc c ≠ []) :
    CPO.sessionStep session prior trans pcc w useSE s e geo rt i =
      some (some (geoAdj geo w rt
        (CPO.windowLikAt session prior trans pcc w useSE s e rt i))) := by
  unfold CPO.sessionStep
  simp only []
  rw [cpo_window_eq_likAt session prior trans pcc w useSE s e rt i hw hi
    hrows]
  unfold adjustWindowGeo geoAdj
  cases geo with
  | false => simp
  | true => simp [show ¬ w = 0 by omega]

/-- Folding the append-style list builder over indices whose step is
everywhere defined collects exactly the per-index values. -/
theorem foldl_append_build {γ : Type} (g : ℕ → Option γ) (f : ℕ → γ)
    (l : List ℕ) (hg : ∀ i ∈ l, g i = some (f i)) (acc : List γ) :
    l.foldl (accStep g) (some acc) = some (acc ++ l.map f) := by
  induction l generalizing acc with
  | nil => simp
  | cons hd tl ih =>
    have h1 : g hd = some (f hd) := hg hd (List.mem_cons_self _ _)
    have := ih (fun i hi => hg i (List.mem_cons_of_mem _ hi)) (acc ++ [f hd])
    simpa [accStep, h1, this]

theorem cpo_windows_eq (session : List CPO.Cmd) (prior : String → ℚ)
    (trans : String → String → ℚ) (pcc : String → Tbl1 ℚ) (w : ℕ)
    (useSE : Bool) (s e : String) (geo : Bool) (rt : ℕ → ℚ → ℚ)
    (hw : 1 ≤ w) (hrows : ∀ c, pcc c ≠ []) :
    CPO.computeLikelihoodWindowsInSession session prior trans pcc w useSE
      s e geo rt =
      some ((List.range ((session ++
          (if useSE then [CPO.Cmd.mk e []] else [])).length + 1 - w)).map
        (fun i => some (geoAdj geo w rt
          (CPO.windowLikAt session prior trans pcc w useSE s e rt i)))) := by
  unfold CPO.computeLikelihoodWindowsInSession
  simp only []
  exact foldl_append_build
    (CPO.sessionStep session prior trans pcc w useSE s e geo rt)
    (fun i => some (geoAdj geo w rt
      (CPO.windowLikAt session prior trans pcc w useSE s e rt i)))
    _ (fun i hi => cpo_sessionStep_eq session prior trans pcc w useSE s e
      geo rt i hw (List.mem_range.mp hi) hrows) []

theorem cpv_window_some (window : List CPV.Cmd) (prior : String → ℚ)
    (trans : String → String → ℚ) (pcc : String → Tbl1 ℚ)
    (vcp : String → String → ℚ) (mp : List String) (us ue : Bool)
    (s e : String) (rt : ℕ → ℚ → ℚ) (hne : window ≠ []) :
    ∃ q, CPV.computeLikelihoodWindow window prior trans pcc vcp mp us ue s e
      rt = some q := by
  unfold CPV.computeLikelihoodWindow
  rw [if_neg (by simpa using hne)]
  exact ⟨_, rfl⟩

theorem cpv_window_eq_likAt (session : List CPV.Cmd) (prior : String → ℚ)
    (trans : String → String → ℚ) (pcc : String → Tbl1 ℚ)
    (vcp : String → String → ℚ) (mp : List String) (w : ℕ)
    (useSE : Bool) (s e : String) (rt : ℕ → ℚ → ℚ) (i : ℕ)
    (hw : 1 ≤ w)
    (hi : i < (session ++ (if useSE then [CPV.Cmd.mk e []] else [])).length
      + 1 - w) :
    CPV.computeLikelihoodWindow
      (((session ++ (if useSE then [CPV.Cmd.mk e []] else [])).drop i).take w)
      prior trans pcc vcp mp (useSE && i == 0) false s e rt =
      some (CPV.windowLikAt session prior trans pcc vcp mp w useSE s e rt
        i) := by
  have hne : (((session ++ (if useSE then [CPV.Cmd.mk e []] else [])).drop
      i).take w) ≠ [] := by
    have hlen : i + w ≤
        (session ++ (if useSE then [CPV.Cmd.mk e []] else [])).length := by
      omega
    intro hcon
    have h0 := congrArg List.length hcon
    rw [List.length_take, List.length_drop, List.length_nil] at h0
    rcases Nat.min_eq_zero_iff.mp h0 with h | h <;> omega
  obtain ⟨q, hq⟩ := cpv_window_some _ prior trans pcc vcp mp
    (useSE && i == 0) false s e rt hne
  rw [hq]
  unfold CPV.windowLikAt
  simp only []
  rw [hq]
  rfl

theorem cpv_sessionStep_eq (session : List CPV.Cmd) (prior : String → ℚ)
    (trans : String → String → ℚ) (pcc : String → Tbl1 ℚ)
    (vcp : String → String → ℚ) (mp : List String) (w : ℕ)
    (useSE : Bool) (s e : String) (geo : Bool) (rt : ℕ → ℚ → ℚ) (i : ℕ)
    (hw : 1 ≤ w)
    (hi : i < (session ++ (if useSE then [CPV.Cmd.mk e []] else [])).length
      + 1 - w) :
    CPV.sessionStep session prior trans pcc vcp mp w useSE s e geo rt i =
      some (some (geoAdj geo w rt
        (CPV.windowLikAt session prior trans pcc vcp mp w useSE s e rt
          i))) := by
  unfold CPV.sessionStep
  simp only []
  rw [cpv_window_eq_likAt session prior trans pcc vcp mp w useSE s e rt i
    hw hi]
  unfold adjustWindowGeo geoAdj
  cases geo with
  | false => simp
  | true => simp [show ¬ w = 0 by omega]

theorem cpv_windows_eq (session : List CPV.Cmd) (prior : String → ℚ)
    (trans : String → String → ℚ) (pcc : String → Tbl1 ℚ)
    (vcp : String → String → ℚ) (mp : List String) (w : ℕ)
    (useSE : Bool) (s e : String) (geo : Bool) (rt : ℕ → ℚ → ℚ)
    (hw : 1 ≤ w) :
    CPV.computeLikelihoodWindowsInSession session prior trans pcc vcp mp w
      useSE s e geo rt =
      some ((List.range ((session ++
          (if useSE then [CPV.Cmd.mk e []] else [])).length + 1 - w)).map
        (fun i => some (geoAdj geo w rt
          (CPV.windowLikAt session prior trans pcc vcp mp w useSE s e rt
            i)))) := by
  unfold CPV.computeLikelihoodWindowsInSession
  simp only []
  exact foldl_append_build
    (CPV.sessionStep session prior trans pcc vcp mp w useSE s e geo rt)
    (fun i => some (geoAdj geo w rt
      (CPV.windowLikAt session prior trans pcc vcp mp w useSE s e rt i)))
    _ (fun i hi => cpv_sessionStep_eq session prior trans pcc vcp mp w useSE
      s e geo rt i hw (List.mem_range.mp hi)) []

/-!  ### Python `min` / `list.index` lemmas over defined likelihoods -/

theorem pyMinFold_map_some (h : ℚ) (t : List ℚ) :
    pyMinFold (some h) (t.map some) = some (t.foldl min h) := by
  induction t generalizing h with
  | nil => rfl
  | cons hd tl ih =>
    have hstep : (if pyLt (some hd) (some h) then some hd else some h) =
        some (min h hd) := by
      unfold pyLt
      rcases lt_or_le hd h with hlt | hle
      · simp [hlt, min_eq_right (le_of_lt hlt)]
      · simp [not_lt.mpr hle, min_eq_left hle]
    simpa [pyMinFold, hstep] using ih (min h hd)

theorem foldl_min_le_init (t : List ℚ) (h : ℚ) : t.foldl min h ≤ h := by
  induction t generalizing h with
  | nil => simp
  | cons hd tl ih => exact le_trans (ih (min h hd)) (min_le_left h hd)

theorem foldl_min_le_mem (t : List ℚ) (h x : ℚ) (hx : x ∈ t) :
    t.foldl min h ≤ x := by
  induction t generalizing h with
  | nil => simp at hx
  | cons hd tl ih =>
    rcases List.mem_cons.mp hx with rfl | hx'
    · exact le_trans (foldl_min_le_init tl (min h x)) (min_le_right h x)
    · exact ih (min h hd) hx'

theorem foldl_min_mem (t : List ℚ) (h : ℚ) :
    t.foldl min h = h ∨ t.foldl min h ∈ t := by
  induction t generalizing h with
  | nil => simp
  | cons hd tl ih =>
    rcases ih (min h hd) with heq | hmem
    · rcases min_cases h hd with ⟨hm, _⟩ | ⟨hm, _⟩
      · exact Or.inl (by simpa [hm] using heq)
      · rw [hm] at heq
        exact Or.inr (by simp [List.foldl_cons, hm, heq])
    · exact Or.inr (List.mem_cons_of_mem _ (by simpa using hmem))

theorem idxOfEq_map_some (lq : List ℚ) (q : ℚ) (hq : q ∈ lq) :
    ∃ ind, idxOfEq (lq.map some) (some q) = some ind ∧ ind < lq.length ∧
      lq.getD ind 0 = q ∧ ∀ j < ind, lq.getD j 0 ≠ q := by
  induction lq with
  | nil => simp at hq
  | cons hd tl ih =>
    by_cases hhd : hd = q
    · subst hhd
      refine ⟨0, ?_, by simp, by simp [List.getD], by simp⟩
      simp [idxOfEq, pyEq]
    · have hq' : q ∈ tl := by
        rcases List.mem_cons.mp hq with heq | hmem
        · exact absurd heq.symm hhd
        · exact hmem
      obtain ⟨ind, hind, hlt, hval, hbefore⟩ := ih hq'
      refine ⟨ind + 1, ?_, by simpa using hlt, by simpa [List.getD] using hval,
        ?_⟩
      · simp [idxOfEq, pyEq, hhd, hind]
      · intro j hj
        cases j with
        | zero => simpa [List.getD] using hhd
        | succ j' =>
          have : j' < ind := by omega
          simpa [List.getD] using hbefore j' this

theorem map_range_getD {γ : Type} (N : ℕ) (f : ℕ → γ) (j : ℕ) (d : γ)
    (hj : j < N) : ((List.range N).map f).getD j d = f j := by
  rw [List.getD_eq_getElem?_getD]
  rw [List.getElem?_map]
  rw [List.getElem?_range hj]
  rfl

theorem getD_mem_of_lt {γ : Type} (l : List γ) (n : ℕ) (d : γ)
    (h : n < l.length) : l.getD n d ∈ l := by
  rw [List.getD_eq_getElem?_getD, List.getElem?_eq_getElem h]
  exact List.getElem_mem h

theorem cpo_rarest_spec (session : List CPO.Cmd) (prior : String → ℚ)
    (trans : String → String → ℚ) (pcc : String → Tbl1 ℚ) (w : ℕ)
    (useSE : Bool) (s e : String) (geo : Bool) (rt : ℕ → ℚ → ℚ)
    (hw : 1 ≤ w) (hrows : ∀ c, pcc c ≠ [])
    (hn : w ≤ session.length + (if useSE then 1 else 0)) :
    ∃ ind, ind < session.length + (if useSE then 1 else 0) + 1 - w ∧
      (∀ j < session.length + (if useSE then 1 else 0) + 1 - w,
        geoAdj geo w rt
          (CPO.windowLikAt session prior trans pcc w useSE s e rt ind) ≤
        geoAdj geo w rt
          (CPO.windowLikAt session prior trans pcc w useSE s e rt j)) ∧
      (∀ j < ind,
        geoAdj geo w rt
          (CPO.windowLikAt session prior trans pcc w useSE s e rt ind) <
        geoAdj geo w rt
          (CPO.windowLikAt session prior trans pcc w useSE s e rt j)) ∧
      CPO.rarestWindowSession session prior trans pcc w useSE s e geo rt =
        some ((session.drop ind).take w, some (geoAdj geo w rt
          (CPO.windowLikAt session prior trans pcc w useSE s e rt ind))) := by
  have hext : (session ++ (if useSE then [CPO.Cmd.mk e []] else [])).length
      = session.length + (if useSE then 1 else 0) := by
    cases useSE <;> simp
  have hwin := cpo_windows_eq session prior trans pcc w useSE s e geo rt hw
    hrows
  rw [hext] at hwin
  have hmap : (List.range (session.length + (if useSE then 1 else 0) + 1 -
      w)).map (fun i => some (geoAdj geo w rt
        (CPO.windowLikAt session prior trans pcc w useSE s e rt i))) =
      ((List.range (session.length + (if useSE then 1 else 0) + 1 - w)).map
        (fun i => geoAdj geo w rt
          (CPO.windowLikAt session prior trans pcc w useSE s e rt i))).map
        some := by
    rw [List.map_map]; rfl
  rw [hmap] at hwin
  have hlen : ((List.range (session.length + (if useSE then 1 else 0) + 1 -
      w)).map (fun i => geoAdj geo w rt
        (CPO.windowLikAt session prior trans pcc w useSE s e rt i))).length =
      session.length + (if useSE then 1 else 0) + 1 - w := by
    simp
  obtain ⟨qh, qt, hcons⟩ : ∃ qh qt,
      (List.range (session.length + (if useSE then 1 else 0) + 1 - w)).map
        (fun i => geoAdj geo w rt
          (CPO.windowLikAt session prior trans pcc w useSE s e rt i)) =
        qh :: qt := by
    cases hc : (List.range (session.length + (if useSE then 1 else 0) + 1 -
        w)).map (fun i => geoAdj geo w rt
          (CPO.windowLikAt session prior trans pcc w useSE s e rt i)) with
    | nil =>
      rw [hc] at hlen
      simp at hlen
      omega
    | cons a b => exact ⟨a, b, rfl⟩
  rw [hcons] at hwin hlen
  have hmem : qt.foldl min qh ∈ qh :: qt := by
    rcases foldl_min_mem qt qh with h | h
    · rw [h]; exact List.mem_cons_self _ _
    · exact List.mem_cons_of_mem _ h
  obtain ⟨ind, hind, hlt, hval, hbefore⟩ :=
    idxOfEq_map_some (qh :: qt) (qt.foldl min qh) hmem
  have hltN : ind < session.length + (if useSE then 1 else 0) + 1 - w := by
    rw [← hlen]
    simpa using hlt
  have hgetf : ∀ j, j < session.length + (if useSE then 1 else 0) + 1 - w →
      (qh :: qt).getD j 0 = geoAdj geo w rt
        (CPO.windowLikAt session prior trans pcc w useSE s e rt j) := by
    intro j hj
    rw [← hcons]
    exact map_range_getD _ _ j 0 hj
  have hfind : geoAdj geo w rt
      (CPO.windowLikAt session prior trans pcc w useSE s e rt ind) =
      qt.foldl min qh := by
    rw [← hgetf ind hltN]
    exact hval
  have hminle : ∀ x ∈ qh :: qt, qt.foldl min qh ≤ x := by
    intro x hx
    rcases List.mem_cons.mp hx with rfl | hx'
    · exact foldl_min_le_init qt x
    · exact foldl_min_le_mem qt qh x hx'
  have hrar : CPO.rarestWindowSession session prior trans pcc w useSE s e geo
      rt = some ((session.drop ind).take w, some (qt.foldl min qh)) := by
    unfold CPO.rarestWindowSession
    rw [hwin]
    simp only [List.map_cons]
    have hminfold := pyMinFold_map_some qh qt
    simp only [hminfold]
    have hind' : idxOfEq (some qh :: qt.map some) (some (qt.foldl min qh)) =
        some ind := by
      simpa using hind
    simp only [hind']
  refine ⟨ind, hltN, ?_, ?_, ?_⟩
  · intro j hj
    rw [hfind, ← hgetf j hj]
    exact hminle _ (getD_mem_of_lt _ _ _ (by omega))
  · intro j hj
    have hjN : j < session.length + (if useSE then 1 else 0) + 1 - w := by
      omega
    rw [hfind, ← hgetf j hjN]
    refine lt_of_le_of_ne (hminle _ (getD_mem_of_lt _ _ _ (by omega))) ?_
    exact fun hcon => hbefore j hj hcon.symm
  · rw [hrar, hfind]

theorem cpv_rarest_spec (session : List CPV.Cmd) (prior : String → ℚ)
    (trans : String → String → ℚ) (pcc : String → Tbl1 ℚ)
    (vcp : String → String → ℚ) (mp : List String) (w : ℕ)
    (useSE : Bool) (s e : String) (geo : Bool) (rt : ℕ → ℚ → ℚ)
    (hw : 1 ≤ w)
    (hn : w ≤ session.length + (if useSE then 1 else 0)) :
    ∃ ind, ind < session.length + (if useSE then 1 else 0) + 1 - w ∧
      (∀ j < session.length + (if useSE then 1 else 0) + 1 - w,
        geoAdj geo w rt
          (CPV.windowLikAt session prior trans pcc vcp mp w useSE s e rt
            ind) ≤
        geoAdj geo w rt
          (CPV.windowLikAt session prior trans pcc vcp mp w useSE s e rt
            j)) ∧
      (∀ j < ind,
        geoAdj geo w rt
          (CPV.windowLikAt session prior trans pcc vcp mp w useSE s e rt
            ind) <
        geoAdj geo w rt
          (CPV.windowLikAt session prior trans pcc vcp mp w useSE s e rt
            j)) ∧
      CPV.rarestWindowSession session prior trans pcc vcp mp w useSE s e geo
        rt = some ((session.drop ind).take w, some (geoAdj geo w rt
          (CPV.windowLikAt session prior trans pcc vcp mp w useSE s e rt
            ind))) := by
  have hext : (session ++ (if useSE then [CPV.Cmd.mk e []] else [])).length
      = session.length + (if useSE then 1 else 0) := by
    cases useSE <;> simp
  have hwin := cpv_windows_eq session prior trans pcc vcp mp w useSE s e geo
    rt hw
  rw [hext] at hwin
  have hmap : (List.range (session.length + (if useSE then 1 else 0) + 1 -
      w)).map (fun i => some (geoAdj geo w rt
        (CPV.windowLikAt session prior trans pcc vcp mp w useSE s e rt i))) =
      ((List.range (session.length + (if useSE then 1 else 0) + 1 - w)).map
        (fun i => geoAdj geo w rt
          (CPV.windowLikAt session prior trans pcc vcp mp w useSE s e rt
            i))).map some := by
    rw [List.map_map]; rfl
  rw [hmap] at hwin
  have hlen : ((List.range (session.length + (if useSE then 1 else 0) + 1 -
      w)).map (fun i => geoAdj geo w rt
        (CPV.windowLikAt session prior trans pcc vcp mp w useSE s e rt
          i))).length =
      session.length + (if useSE then 1 else 0) + 1 - w := by
    simp
  obtain ⟨qh, qt, hcons⟩ : ∃ qh qt,
      (List.range (session.length + (if useSE then 1 else 0) + 1 - w)).map
        (fun i => geoAdj geo w rt
          (CPV.windowLikAt session prior trans pcc vcp mp w useSE s e rt
            i)) = qh :: qt := by
    cases hc : (List.range (session.length + (if useSE then 1 else 0) + 1 -
        w)).map (fun i => geoAdj geo w rt
          (CPV.windowLikAt session prior trans pcc vcp mp w useSE s e rt
            i)) with
    | nil =>
      rw [hc] at hlen
      simp at hlen
      omega
    | cons a b => exact ⟨a, b, rfl⟩
  rw [hcons] at hwin hlen
  have hmem : qt.foldl min qh ∈ qh :: qt := by
    rcases foldl_min_mem qt qh with h | h
    · rw [h]; exact List.mem_cons_self _ _
    · exact List.mem_cons_of_mem _ h
  obtain ⟨ind, hind, hlt, hval, hbefore⟩ :=
    idxOfEq_map_some (qh :: qt) (qt.foldl min qh) hmem
  have hltN : ind < session.length + (if useSE then 1 else 0) + 1 - w := by
    rw [← hlen]
    simpa using hlt
  have hgetf : ∀ j, j < session.length + (if useSE then 1 else 0) + 1 - w →
      (qh :: qt).getD j 0 = geoAdj geo w rt
        (CPV.windowLikAt session prior trans pcc vcp mp w useSE s e rt
          j) := by
    intro j hj
    rw [← hcons]
    exact map_range_getD _ _ j 0 hj
  have hfind : geoAdj geo w rt
      (CPV.windowLikAt session prior trans pcc vcp mp w useSE s e rt ind) =
      qt.foldl min qh := by
    rw [← hgetf ind hltN]
    exact hval
  have hminle : ∀ x ∈ qh :: qt, qt.foldl min qh ≤ x := by
    intro x hx
    rcases List.mem_cons.mp hx with rfl | hx'
    · exact foldl_min_le_init qt x
    · exact foldl_min_le_mem qt qh x hx'
  have hrar : CPV.rarestWindowSession session prior trans pcc vcp mp w useSE
      s e geo rt =
      some ((session.drop ind).take w, some (qt.foldl min qh)) := by
    unfold CPV.rarestWindowSession
    rw [hwin]
    simp only [List.map_cons]
    have hminfold := pyMinFold_map_some qh qt
    simp only [hminfold]
    have hind' : idxOfEq (some qh :: qt.map some) (some (qt.foldl min qh)) =
        some ind := by
      simpa using hind
    simp only [hind']
  refine ⟨ind, hltN, ?_, ?_, ?_⟩
  · intro j hj
    rw [hfind, ← hgetf j hj]
    exact hminle _ (getD_mem_of_lt _ _ _ (by omega))
  · intro j hj
    have hjN : j < session.length + (if useSE then 1 else 0) + 1 - w := by
      omega
    rw [hfind, ← hgetf j hjN]
    refine lt_of_le_of_ne (hminle _ (getD_mem_of_lt _ _ _ (by omega))) ?_
    exact fun hcon => hbefore j hj hcon.symm
  · rw [hrar, hfind]

/-- C2: whenever at least one sliding window exists (window length at
least 1 and not exceeding the session length plus the synthetic end-token
command when start/end tokens are on; parameter-probability rows non-empty
as guaranteed by a StateMatrix), `rarest_window_session` returns the
sub-sequence of the session starting at a position attaining the minimum
of the per-position sliding-window likelihoods — each computed
independently by `compute_likelihood_window` on the corresponding slice,
with the geometric-mean adjustment — together with that minimum
likelihood; every earlier position has a strictly larger likelihood, so
ties resolve to the earliest position.  Both variants. -/
theorem claim_C2_rarest_window_min (sessionO : List CPO.Cmd)
    (sessionV : List CPV.Cmd) (priorO : String → ℚ)
    (transO : String → String → ℚ) (pccO : String → Tbl1 ℚ)
    (priorV : String → ℚ) (transV : String → String → ℚ)
    (pccV : String → Tbl1 ℚ) (vcpV : String → String → ℚ)
    (mp : List String) (w : ℕ) (useSE : Bool) (s e : String) (geo : Bool)
    (rt : ℕ → ℚ → ℚ) (hw : 1 ≤ w) (hrowsO : ∀ c, pccO c ≠ [])
    (hnO : w ≤ sessionO.length + (if useSE then 1 else 0))
    (hnV : w ≤ sessionV.length + (if useSE then 1 else 0)) :
    (∃ ind, ind < sessionO.length + (if useSE then 1 else 0) + 1 - w ∧
      (∀ j < sessionO.length + (if useSE then 1 else 0) + 1 - w,
        geoAdj geo w rt
          (CPO.windowLikAt sessionO priorO transO pccO w useSE s e rt ind) ≤
        geoAdj geo w rt
          (CPO.windowLikAt sessionO priorO transO pccO w useSE s e rt j)) ∧
      (∀ j < ind,
        geoAdj geo w rt
          (CPO.windowLikAt sessionO priorO transO pccO w useSE s e rt ind) <
        geoAdj geo w rt
          (CPO.windowLikAt sessionO priorO transO pccO w useSE s e rt j)) ∧
      CPO.rarestWindowSession sessionO priorO transO pccO w useSE s e geo
        rt = some ((sessionO.drop ind).take w, some (geoAdj geo w rt
          (CPO.windowLikAt sessionO priorO transO pccO w useSE s e rt
            ind)))) ∧
    (∃ ind, ind < sessionV.length + (if useSE then 1 else 0) + 1 - w ∧
      (∀ j < sessionV.length + (if useSE then 1 else 0) + 1 - w,
        geoAdj geo w rt
          (CPV.windowLikAt sessionV priorV transV pccV vcpV mp w useSE s e
            rt ind) ≤
        geoAdj geo w rt
          (CPV.windowLikAt sessionV priorV transV pccV vcpV mp w useSE s e
            rt j)) ∧
      (∀ j < ind,
        geoAdj geo w rt
          (CPV.windowLikAt sessionV priorV transV pccV vcpV mp w useSE s e
            rt ind) <
        geoAdj geo w rt
          (CPV.windowLikAt sessionV priorV transV pccV vcpV mp w useSE s e
            rt j)) ∧
      CPV.rarestWindowSession sessionV priorV transV pccV vcpV mp w useSE s
        e geo rt = some ((sessionV.drop ind).take w, some (geoAdj geo w rt
          (CPV.windowLikAt sessionV priorV transV pccV vcpV mp w useSE s e
            rt ind)))) :=
  ⟨cpo_rarest_spec sessionO priorO transO pccO w useSE s e geo rt hw hrowsO
      hnO,
    cpv_rarest_spec sessionV priorV transV pccV vcpV mp w useSE s e geo rt
      hw hnV⟩

/-- Witness for C2 at a concrete one-command session and window length 1. -/
theorem claim_C2_rarest_window_min_witness :
    (1 ≤ 1 ∧ (∀ c : String, (fun _ : String => [("q", (1 : ℚ))]) c ≠ []) ∧
      1 ≤ ([CPO.Cmd.mk "a" []] : List CPO.Cmd).length +
        (if false then 1 else 0) ∧
      1 ≤ ([CPV.Cmd.mk "a" []] : List CPV.Cmd).length +
        (if false then 1 else 0)) ∧
    ((∃ ind, ind < ([CPO.Cmd.mk "a" []] : List CPO.Cmd).length +
        (if false then 1 else 0) + 1 - 1 ∧
      (∀ j < ([CPO.Cmd.mk "a" []] : List CPO.Cmd).length +
          (if false then 1 else 0) + 1 - 1,
        geoAdj false 1 (fun _ q => q)
          (CPO.windowLikAt [CPO.Cmd.mk "a" []] (fun _ => 1) (fun _ _ => 1)
            (fun _ => [("q", 1)]) 1 false "S" "E" (fun _ q => q) ind) ≤
        geoAdj false 1 (fun _ q => q)
          (CPO.windowLikAt [CPO.Cmd.mk "a" []] (fun _ => 1) (fun _ _ => 1)
            (fun _ => [("q", 1)]) 1 false "S" "E" (fun _ q => q) j)) ∧
      (∀ j < ind,
        geoAdj false 1 (fun _ q => q)
          (CPO.windowLikAt [CPO.Cmd.mk "a" []] (fun _ => 1) (fun _ _ => 1)
            (fun _ => [("q", 1)]) 1 false "S" "E" (fun _ q => q) ind) <
        geoAdj false 1 (fun _ q => q)
          (CPO.windowLikAt [CPO.Cmd.mk "a" []] (fun _ => 1) (fun _ _ => 1)
            (fun _ => [("q", 1)]) 1 false "S" "E" (fun _ q => q) j)) ∧
      CPO.rarestWindowSession [CPO.Cmd.mk "a" []] (fun _ => 1)
        (fun _ _ => 1) (fun _ => [("q", 1)]) 1 false "S" "E" false
        (fun _ q => q) =
        some ((([CPO.Cmd.mk "a" []] : List CPO.Cmd).drop ind).take 1,
          some (geoAdj false 1 (fun _ q => q)
            (CPO.windowLikAt [CPO.Cmd.mk "a" []] (fun _ => 1)
              (fun _ _ => 1) (fun _ => [("q", 1)]) 1 false "S" "E"
              (fun _ q => q) ind)))) ∧
    (∃ ind, ind < ([CPV.Cmd.mk "a" []] : List CPV.Cmd).length +
        (if false then 1 else 0) + 1 - 1 ∧
      (∀ j < ([CPV.Cmd.mk "a" []] : List CPV.Cmd).length +
          (if false then 1 else 0) + 1 - 1,
        geoAdj false 1 (fun _ q => q)
          (CPV.windowLikAt [CPV.Cmd.mk "a" []] (fun _ => 1) (fun _ _ => 1)
            (fun _ => [("q", 1)]) (fun _ _ => 1) [] 1 false "S" "E"
            (fun _ q => q) ind) ≤
        geoAdj false 1 (fun _ q => q)
          (CPV.windowLikAt [CPV.Cmd.mk "a" []] (fun _ => 1) (fun _ _ => 1)
            (fun _ => [("q", 1)]) (fun _ _ => 1) [] 1 false "S" "E"
            (fun _ q => q) j)) ∧
      (∀ j < ind,
        geoAdj false 1 (fun _ q => q)
          (CPV.windowLikAt [CPV.Cmd.mk "a" []] (fun _ => 1) (fun _ _ => 1)
            (fun _ => [("q", 1)]) (fun _ _ => 1) [] 1 false "S" "E"
            (fun _ q => q) ind) <
        geoAdj false 1 (fun _ q => q)
          (CPV.windowLikAt [CPV.Cmd.mk "a" []] (fun _ => 1) (fun _ _ => 1)
            (fun _ => [("q", 1)]) (fun _ _ => 1) [] 1 false "S" "E"
            (fun _ q => q) j)) ∧
      CPV.rarestWindowSession [CPV.Cmd.mk "a" []] (fun _ => 1)
        (fun _ _ => 1) (fun _ => [("q", 1)]) (fun _ _ => 1) [] 1 false "S"
        "E" false (fun _ q => q) =
        some ((([CPV.Cmd.mk "a" []] : List CPV.Cmd).drop ind).take 1,
          some (geoAdj false 1 (fun _ q => q)
            (CPV.windowLikAt [CPV.Cmd.mk "a" []] (fun _ => 1)
              (fun _ _ => 1) (fun _ => [("q", 1)]) (fun _ _ => 1) [] 1
              false "S" "E" (fun _ q => q) ind))))) :=
  ⟨⟨by decide, fun _ => List.cons_ne_nil _ _, by decide, by decide⟩,
    claim_C2_rarest_window_min [CPO.Cmd.mk "a" []] [CPV.Cmd.mk "a" []]
      (fun _ => 1) (fun _ _ => 1) (fun _ => [("q", 1)]) (fun _ => 1)
      (fun _ _ => 1) (fun _ => [("q", 1)]) (fun _ _ => 1) [] 1 false "S"
      "E" false (fun _ q => q) (by decide)
      (fun _ => List.cons_ne_nil _ _) (by decide) (by decide)⟩

/-- Witness for the amended C3 (window length 3, a one-command session,
start/end tokens on). -/
theorem claim_C3_short_session_amended_witness :
    ((if true then ([CPO.Cmd.mk "a" []] : List CPO.Cmd).length + 1
        else ([CPO.Cmd.mk "a" []] : List CPO.Cmd).length) < 3 ∧
      (if true then ([CPV.Cmd.mk "a" []] : List CPV.Cmd).length + 1
        else ([CPV.Cmd.mk "a" []] : List CPV.Cmd).length) < 3) ∧
    (CPO.rarestWindowSession [CPO.Cmd.mk "a" []] (fun _ => 1) (fun _ _ => 1)
        (fun _ => []) 3 true "S" "E" false (fun _ q => q) =
        some ([], none) ∧
      CPV.rarestWindowSession [CPV.Cmd.mk "a" []] (fun _ => 1)
        (fun _ _ => 1) (fun _ => []) (fun _ _ => 1) [] 3 true "S" "E" false
        (fun _ q => q) = some ([], none)) :=
  ⟨⟨by decide, by decide⟩,
    (claim_C3_short_session_amended [CPO.Cmd.mk "a" []] [CPV.Cmd.mk "a" []]
      (fun _ => 1) (fun _ _ => 1) (fun _ => []) (fun _ => 1) (fun _ _ => 1)
      (fun _ => []) (fun _ _ => 1) [] 3 true "S" "E" false
      (fun _ q => q)).1 (by decide),
    (claim_C3_short_session_amended [CPO.Cmd.mk "a" []] [CPV.Cmd.mk "a" []]
      (fun _ => 1) (fun _ _ => 1) (fun _ => []) (fun _ => 1) (fun _ _ => 1)
      (fun _ => []) (fun _ _ => 1) [] 3 true "S" "E" false
      (fun _ q => q)).2 (by decide)⟩

end Msticpy
